import Mathlib

/-!
A verification development for the `DebuggerAgent` remediation pipeline
(`ai_agent_project/tests/__init__.py`).

The Python code is shallowly embedded:
* strings are `List Char` (`Str`), so Python's `in` / slicing / `readlines`
  become executable list functions;
* the file system is an insertion-ordered association list from path to
  content, with Python-`dict` update semantics;
* the regular-expression searches of the source are embedded as bespoke
  backtracking matchers that reproduce `re`'s leftmost-first semantics for
  the concrete patterns appearing in the code (lazy `(.+?)` groups enumerate
  shorter splits first, greedy `(.+)` / `(\d+)` take maximal runs, `.` never
  matches a newline);
* external collaborators (the Ollama/DeepSeek LLM backend, the `unidiff`
  patch machinery of `DebugAgentUtils`, the stdlib JSON decoding of a learned
  fix payload) are parameters of the embedding, gathered in `Ext`;
* calls to the test runner, the LLM backend, the VCS rollback and the
  GitHub push are recorded in an event trace carried by the agent state.

Paths are modelled relative to the process working directory (so
`os.path.abspath` is the identity and `os.sep` is `'/'`, the POSIX model).
-/

set_option maxRecDepth 20000

namespace DebugAgent

/-- Python strings, embedded as lists of characters. -/
abbrev Str := List Char

/-- Python's substring test `sub in s`: does `sub` occur contiguously in `s`? -/
def hasSub (s sub : Str) : Bool :=
  match s with
  | [] => sub.isEmpty
  | _ :: t => sub.isPrefixOf s || hasSub t sub

/-- Python `file.readlines()`: split content into lines, each keeping its
trailing newline (the final line may lack one). -/
def readlines : Str → List Str
  | [] => []
  | c :: cs =>
    if c = '\n' then ['\n'] :: readlines cs
    else
      match readlines cs with
      | [] => [[c]]
      | l :: ls => (c :: l) :: ls

/-- Python `file.writelines(lines)` writes the concatenation of the lines. -/
def writelines (ls : List Str) : Str := ls.flatten

/-- Python `line.replace("\t", "    ")`: each tab becomes four spaces. -/
def replaceTabs : Str → Str
  | [] => []
  | c :: cs => if c = '\t' then ' ' :: ' ' :: ' ' :: ' ' :: replaceTabs cs
               else c :: replaceTabs cs

/-- Characters stripped by Python's `str.strip()`. -/
def isPySpace (c : Char) : Bool :=
  c = ' ' || c = '\t' || c = '\n' || c = '\r' || c = Char.ofNat 11 || c = Char.ofNat 12

/-- Python `str.strip()`. -/
def pyStrip (s : Str) : Str :=
  ((s.dropWhile isPySpace).reverse.dropWhile isPySpace).reverse

/-- Python `list.insert(i, a)` for an in-bounds index `i`. -/
def insertAt (xs : List Str) (i : Nat) (a : Str) : List Str :=
  xs.take i ++ a :: xs.drop i

/-- Update of a Python `dict` viewed as its insertion-ordered entry list:
`d[k] = v` replaces the value of an existing key in place and otherwise
appends a new entry at the end. -/
def dictSet (d : List (Str × Str)) (k v : Str) : List (Str × Str) :=
  if d.any (fun p => p.1 == k) then
    d.map (fun p => if p.1 == k then (k, v) else p)
  else d ++ [(k, v)]

/-- The file system: an ordered association list from path to content.
Paths are relative to the working directory. -/
structure FS where
  files : List (Str × Str)
  deriving DecidableEq

/-- `os.path.exists`. -/
def FS.existsF (fs : FS) (p : Str) : Bool := fs.files.any (fun q => q.1 == p)

/-- `open(p).read()`; reading an absent path is modelled as the empty string
(the code always guards reads with `os.path.exists`). -/
def FS.read (fs : FS) (p : Str) : Str :=
  ((fs.files.find? (fun q => q.1 == p)).map Prod.snd).getD []

/-- `open(p, "w").write(c)`: overwrite an existing file or create a new one. -/
def FS.write (fs : FS) (p c : Str) : FS := ⟨dictSet fs.files p c⟩

end DebugAgent

namespace DebugAgent

/-!
## The embedded regular-expression searches

Every regex in the source is a chain of literals and `(.+?)` / `(.+)` /
`(\d+)` / `(.*?)` groups.  `lazySplits sep cs` enumerates, in the order a
lazy group tries them (shortest first), the decompositions
`cs = g ++ sep ++ rest` with `g` nonempty and newline-free.
-/

/-- All decompositions `cs = g ++ sep ++ rest` with `g` nonempty and free of
newlines, shortest `g` first — the backtracking order of a lazy `(.+?)`
followed by the literal `sep`. -/
def lazySplits (sep : Str) (cs : Str) : List (Str × Str) :=
  (List.range cs.length).filterMap (fun i =>
    if sep.isPrefixOf (cs.drop (i + 1)) && !((cs.take (i + 1)).contains '\n')
    then some (cs.take (i + 1), (cs.drop (i + 1)).drop sep.length)
    else none)

/-- A parsed pytest failure line: file, test name, error text.  This is the
`f_dict` built by `DebuggerAgent.parse_test_failures`. -/
structure Failure where
  file : Str
  test : Str
  error : Str
  deriving DecidableEq

/-- Matching the tail of `FAILED (.+?)::(.+?) - (.+)` (everything after the
literal `FAILED `) at the start of `cs`: lazy group 1 up to `::`, lazy
group 2 up to ` - `, then the greedy group 3 running to the end of the line
(nonempty).  Returns the three groups and the unconsumed rest. -/
def matchTail (cs : Str) : Option (Str × Str × Str × Str) :=
  (lazySplits (':' :: ':' :: []) cs).findSome? (fun p =>
    (lazySplits (' ' :: '-' :: ' ' :: []) p.2).findSome? (fun q =>
      if (q.2.takeWhile (fun c => c ≠ '\n')).isEmpty then none
      else some (p.1, q.1, q.2.takeWhile (fun c => c ≠ '\n'),
                 q.2.drop (q.2.takeWhile (fun c => c ≠ '\n')).length)))

/-- The full failure pattern anchored at the start of `cs`: the literal
`FAILED ` followed by `matchTail`. -/
def matchFull (cs : Str) : Option (Failure × Str) :=
  if ("FAILED ".toList).isPrefixOf cs then
    match matchTail (cs.drop 7) with
    | some (g1, g2, g3, rest) => some (⟨g1, g2, g3⟩, rest)
    | none => none
  else none

theorem listIsPrefixOfIff {l1 l2 : List Char} :
    l1.isPrefixOf l2 = true ↔ l1 <+: l2 :=
  List.isPrefixOf_iff_prefix

theorem listPrefixLengthLe {l1 l2 : List Char} (h : l1 <+: l2) :
    l1.length ≤ l2.length :=
  List.IsPrefix.length_le h

theorem mem_lazySplits_length {sep cs : Str} {g r : Str}
    (h : (g, r) ∈ lazySplits sep cs) :
    1 ≤ g.length ∧ r.length + sep.length + g.length = cs.length := by
  unfold lazySplits at h
  rcases List.mem_filterMap.1 h with ⟨i, hi, hsome⟩
  split at hsome
  · rename_i hc
    rw [Option.some.injEq, Prod.mk.injEq] at hsome
    obtain ⟨hg, hr⟩ := hsome
    subst hg; subst hr
    have hlen : i < cs.length := List.mem_range.1 hi
    rw [Bool.and_eq_true] at hc
    have hsep : sep.length ≤ (cs.drop (i + 1)).length :=
      listPrefixLengthLe (listIsPrefixOfIff.1 hc.1)
    simp only [List.length_take, List.length_drop] at *
    omega
  · exact absurd hsome (by simp)

theorem matchTail_shrinks {cs : Str} {g1 g2 g3 rest : Str}
    (h : matchTail cs = some (g1, g2, g3, rest)) :
    rest.length + 7 ≤ cs.length + 6 := by
  unfold matchTail at h
  rcases List.exists_of_findSome?_eq_some h with ⟨p, hp, hpeq⟩
  rcases List.exists_of_findSome?_eq_some hpeq with ⟨q, hq, hqeq⟩
  split at hqeq
  · exact absurd hqeq (by simp)
  · rw [Option.some.injEq, Prod.mk.injEq, Prod.mk.injEq, Prod.mk.injEq] at hqeq
    obtain ⟨-, -, -, hrest⟩ := hqeq
    subst hrest
    have h1 := mem_lazySplits_length hp
    have h2 := mem_lazySplits_length hq
    simp only [List.length_drop]
    omega

theorem matchFull_shrinks {cs : Str} {f : Failure} {rest : Str}
    (h : matchFull cs = some (f, rest)) : rest.length + 1 ≤ cs.length := by
  unfold matchFull at h
  split at h
  · rename_i hp
    split at h
    · rename_i g1 g2 g3 r htt
      rw [Option.some.injEq, Prod.mk.injEq] at h
      obtain ⟨-, hrest⟩ := h
      subst hrest
      have hlen : 7 ≤ cs.length := by
        have h7 : ("FAILED ".toList).length = 7 := by decide
        have := listPrefixLengthLe (listIsPrefixOfIff.1 hp)
        omega
      have := matchTail_shrinks htt
      simp only [List.length_drop] at this
      omega
    · exact absurd h (by simp)
  · exact absurd h (by simp)

/-- Fuelled scanner underlying `finditer`; each step consumes at least one
character, so fuel `cs.length` always suffices (`finditerF_congr`). -/
def finditerF : Nat → Str → List Failure
  | 0, _ => []
  | _ + 1, [] => []
  | fuel + 1, c :: cs' =>
    match matchFull (c :: cs') with
    | some (f, rest) => f :: finditerF fuel rest
    | none => finditerF fuel cs'

/-- `re.finditer` with the failure pattern: scan left to right, emit each
non-overlapping match, resume after the matched text. -/
def finditer (cs : Str) : List Failure := finditerF cs.length cs

theorem finditerF_congr :
    ∀ fuel₁ fuel₂ cs, cs.length ≤ fuel₁ → cs.length ≤ fuel₂ →
      finditerF fuel₁ cs = finditerF fuel₂ cs := by
  intro fuel₁
  induction fuel₁ with
  | zero =>
    intro fuel₂ cs h1 _
    have : cs = [] := List.length_eq_zero.1 (Nat.le_zero.1 h1)
    subst this
    cases fuel₂ <;> rfl
  | succ k ih =>
    intro fuel₂ cs h1 h2
    cases cs with
    | nil => cases fuel₂ <;> rfl
    | cons c cs' =>
      have hlen : cs'.length + 1 ≤ fuel₂ := by simpa using h2
      obtain ⟨m, rfl⟩ : ∃ m, fuel₂ = m + 1 :=
        ⟨fuel₂ - 1, by omega⟩
      simp only [finditerF]
      rcases hm : matchFull (c :: cs') with _ | ⟨f, rest⟩
      · exact ih m cs' (by simpa using h1) (by omega)
      · have hr := matchFull_shrinks hm
        simp only [List.length_cons] at hr h1
        exact congrArg (f :: ·) (ih m rest (by omega) (by omega))

theorem finditer_nil : finditer [] = [] := rfl

theorem finditer_cons_match {c : Char} {cs' : Str} {f : Failure} {rest : Str}
    (h : matchFull (c :: cs') = some (f, rest)) :
    finditer (c :: cs') = f :: finditer rest := by
  have hr := matchFull_shrinks h
  simp only [List.length_cons] at hr
  unfold finditer
  simp only [List.length_cons, finditerF, h]
  exact congrArg (f :: ·) (finditerF_congr _ _ rest (by omega) le_rfl)

theorem finditer_cons_nomatch {c : Char} {cs' : Str}
    (h : matchFull (c :: cs') = none) :
    finditer (c :: cs') = finditer cs' := by
  unfold finditer
  simp only [List.length_cons, finditerF, h]

/-- `DebuggerAgent.parse_test_failures`: run the failure regex over the whole
test output, collecting `{file, test, error}` records in match order. -/
def parse_test_failures (test_output : Str) : List Failure := finditer test_output

/-- `re.search`: try the anchored matcher at every position, left to right. -/
def searchPos (m : Str → Option α) : Str → Option α
  | [] => none
  | c :: cs =>
    match m (c :: cs) with
    | some r => some r
    | none => searchPos m cs

/-- Anchored `lit0(.+?)lit1`: the literal `lit0`, a lazy nonempty group, the
literal `lit1`. -/
def matchLit1 (lit0 lit1 : Str) (cs : Str) : Option Str :=
  if lit0.isPrefixOf cs then
    (lazySplits lit1 (cs.drop lit0.length)).findSome? (fun p => some p.1)
  else none

/-- Anchored `lit0(.+?)lit1(.+?)lit2` with two lazy groups. -/
def matchLit2 (lit0 lit1 lit2 : Str) (cs : Str) : Option (Str × Str) :=
  if lit0.isPrefixOf cs then
    (lazySplits lit1 (cs.drop lit0.length)).findSome? (fun p =>
      (lazySplits lit2 p.2).findSome? (fun q => some (p.1, q.1)))
  else none

/-- Anchored `lit0(.+?)sep(.+)`: lazy first group, greedy second group
running to the end of the line. -/
def matchLitGreedy (lit0 sep : Str) (cs : Str) : Option (Str × Str) :=
  if lit0.isPrefixOf cs then
    (lazySplits sep (cs.drop lit0.length)).findSome? (fun p =>
      if (p.2.takeWhile (fun c => c ≠ '\n')).isEmpty then none
      else some (p.1, p.2.takeWhile (fun c => c ≠ '\n')))
  else none

/-- The apostrophe character. -/
def squote : Char := Char.ofNat 39

/-- `re.search(r"'(.+?)' object has no attribute '(.+?)'", error_msg)`,
returning `(class_name, missing_attr)`. -/
def searchAttr (error_msg : Str) : Option (Str × Str) :=
  searchPos
    (matchLit2 (squote :: []) "' object has no attribute '".toList (squote :: []))
    error_msg

/-- `re.search(r"AssertionError: (.+?) != (.+)", error_msg)`, returning
`(expected, actual)`. -/
def searchAssertErr (error_msg : Str) : Option (Str × Str) :=
  searchPos (matchLitGreedy ("AssertionError: ".toList) " != ".toList) error_msg

/-- `re.search(r"No module named '(.+?)'", error_msg)`. -/
def searchImport (error_msg : Str) : Option Str :=
  searchPos (matchLit1 ("No module named '".toList) (squote :: [])) error_msg

/-- Python `int()` on a nonempty digit string. -/
def digitsToNat (ds : Str) : Nat :=
  ds.foldl (fun n c => n * 10 + (c.toNat - 48)) 0

/-- Anchored `(.+?)\(\) missing (\d+) required positional argument`: a lazy
leading group up to the literal `() missing `, then a maximal digit run
followed by the literal ` required positional argument`. -/
def matchTypeAt (cs : Str) : Option (Str × Nat) :=
  (lazySplits ("() missing ".toList) cs).findSome? (fun p =>
    if (p.2.takeWhile Char.isDigit).isEmpty then none
    else if (" required positional argument".toList).isPrefixOf
        (p.2.drop (p.2.takeWhile Char.isDigit).length) then
      some (p.1, digitsToNat (p.2.takeWhile Char.isDigit))
    else none)

/-- `re.search(r"(.+?)\(\) missing (\d+) required positional argument", error_msg)`,
returning `(function_name, missing_count)`. -/
def searchTypeErr (error_msg : Str) : Option (Str × Nat) :=
  searchPos matchTypeAt error_msg

/-- Is there a match of `fn\((.*?)\)` anchored at the start of `cs`?  The
interpolated function name is treated as a literal. -/
def callAt (fn : Str) (cs : Str) : Bool :=
  (fn ++ ['(']).isPrefixOf cs &&
    [')'].isPrefixOf
      ((cs.drop (fn.length + 1)).drop
        ((cs.drop (fn.length + 1)).takeWhile (fun ch => ch ≠ ')' && ch ≠ '\n')).length)

/-- `re.search(rf"{fn}\((.*?)\)", line)` viewed as a Boolean test. -/
def searchCall (fn : Str) : Str → Bool
  | [] => false
  | c :: cs => callAt fn (c :: cs) || searchCall fn cs

/-- Fuelled engine of `re.sub(rf"{fn}\((.*?)\)", rf"{fn}(\1, {ph})", line)`:
replace every non-overlapping occurrence, resuming after the replaced text. -/
def subCallF : Nat → Str → Str → Str → Str
  | 0, _, _, cs => cs
  | _ + 1, _, _, [] => []
  | fuel + 1, fn, ph, c :: cs =>
    if callAt fn (c :: cs) then
      let rest := (c :: cs).drop (fn.length + 1)
      let g := rest.takeWhile (fun ch => ch ≠ ')' && ch ≠ '\n')
      fn ++ '(' :: (g ++ ',' :: ' ' :: (ph ++ ')' ::
        subCallF fuel fn ph (rest.drop (g.length + 1))))
    else c :: subCallF fuel fn ph cs

/-- `re.sub(rf"{fn}\((.*?)\)", rf"{fn}(\1, {ph})", line)`. -/
def subCall (fn ph line : Str) : Str := subCallF line.length fn ph line

/-- Match of `assert (.+?) == (.+)` anchored at the start of `cs`; returns
the unconsumed rest (the greedy last group runs to the end of the line). -/
def assertAt (cs : Str) : Option Str :=
  if ("assert ".toList).isPrefixOf cs then
    (lazySplits (" == ".toList) (cs.drop 7)).findSome? (fun p =>
      if (p.2.takeWhile (fun ch => ch ≠ '\n')).isEmpty then none
      else some (p.2.drop (p.2.takeWhile (fun ch => ch ≠ '\n')).length))
  else none

/-- Fuelled engine of
`re.sub(r"assert (.+?) == (.+)", f"assert {actual} == {actual}\n", line)`. -/
def subAssertF : Nat → Str → Str → Str
  | 0, _, cs => cs
  | _ + 1, _, [] => []
  | fuel + 1, actual, c :: cs =>
    match assertAt (c :: cs) with
    | some rest =>
      "assert ".toList ++ actual ++ " == ".toList ++ actual ++ '\n' ::
        subAssertF fuel actual rest
    | none => c :: subAssertF fuel actual cs

/-- `re.sub(r"assert (.+?) == (.+)", f"assert {actual} == {actual}\n", line)`. -/
def subAssert (actual line : Str) : Str := subAssertF line.length actual line

end DebugAgent

namespace DebugAgent

/-!
## The quick pattern fixes

All five matchers operate on the file `os.path.join("tests", failure["file"])`.
-/

/-- Insert `stub` right after the first line containing `key`, if any
(the `for … break` loop of `_quick_fix_missing_attribute`). -/
def insertAfterClass (key stub : Str) : List Str → List Str
  | [] => []
  | l :: ls =>
    if hasSub l key then l :: stub :: ls
    else l :: insertAfterClass key stub ls

/-- `DebuggerAgent._quick_fix_missing_attribute`: parse
`'<Class>' object has no attribute '<attr>'`, then insert a stub method
after the first line containing `class <Class>`.  The file is rewritten
even when no class line is found (same lines), and the call reports
success. -/
def _quick_fix_missing_attribute (fs : FS) (file_name error_msg : Str) : Bool × FS :=
  match searchAttr error_msg with
  | none => (false, fs)
  | some (class_name, missing_attr) =>
    let path := "tests/".toList ++ file_name
    if fs.existsF path = false then (false, fs)
    else
      let lines := readlines (fs.read path)
      let stub := "    def ".toList ++ missing_attr ++ "(self):\n        pass\n\n".toList
      let lines' := insertAfterClass ("class ".toList ++ class_name) stub lines
      (true, fs.write path (writelines lines'))

/-- Rewrite the first line containing both `"assert "` and `"=="` using
`subAssert`; `none` when no such line exists (`changed_something` stays
false and the file is not written). -/
def fixFirstAssert (actual : Str) : List Str → Option (List Str)
  | [] => none
  | l :: ls =>
    if hasSub l ("assert ".toList) && hasSub l ("==".toList) then
      some (subAssert actual l :: ls)
    else (fixFirstAssert actual ls).map (l :: ·)

/-- `DebuggerAgent._quick_fix_assertion_mismatch`. -/
def _quick_fix_assertion_mismatch (fs : FS) (file_name error_msg : Str) : Bool × FS :=
  match searchAssertErr error_msg with
  | none => (false, fs)
  | some (_expected, actual) =>
    let path := "tests/".toList ++ file_name
    if fs.existsF path = false then (false, fs)
    else
      match fixFirstAssert actual (readlines (fs.read path)) with
      | none => (false, fs)
      | some lines' => (true, fs.write path (writelines lines'))

/-- `DebuggerAgent._quick_fix_import_error`: the `already_imported` test is
`any(missing_module in line for line in lines if "import" in line)` — a
substring test on both `"import"` and the module name. -/
def _quick_fix_import_error (fs : FS) (file_name error_msg : Str) : Bool × FS :=
  match searchImport error_msg with
  | none => (false, fs)
  | some missing_module =>
    let path := "tests/".toList ++ file_name
    if fs.existsF path = false then (false, fs)
    else
      let lines := readlines (fs.read path)
      if lines.any (fun l => hasSub l ("import".toList) && hasSub l missing_module) then
        (false, fs)
      else
        (true, fs.write path
          (writelines (("import ".toList ++ missing_module ++ ['\n']) :: lines)))

/-- `DebuggerAgent._quick_fix_type_error`: append `missing_count` `None`
placeholders at every call-site line matching `<fn>(...)`. -/
def _quick_fix_type_error (fs : FS) (file_name error_msg : Str) : Bool × FS :=
  match searchTypeErr error_msg with
  | none => (false, fs)
  | some (function_name, missing_count) =>
    let path := "tests/".toList ++ file_name
    if fs.existsF path = false then (false, fs)
    else
      let lines := readlines (fs.read path)
      let placeholders :=
        List.intercalate (", ".toList) (List.replicate missing_count ("None".toList))
      if lines.any (fun l => searchCall function_name l) then
        (true, fs.write path (writelines (lines.map (fun l =>
          if searchCall function_name l then subCall function_name placeholders l
          else l))))
      else (false, fs)

/-- `DebuggerAgent._quick_fix_indentation`: convert every tab to four spaces;
unconditional success when the file exists. -/
def _quick_fix_indentation (fs : FS) (file_name : Str) : Bool × FS :=
  let path := "tests/".toList ++ file_name
  if fs.existsF path = false then (false, fs)
  else
    let lines := readlines (fs.read path)
    (true, fs.write path (writelines (lines.map replaceTabs)))

/-- `DebuggerAgent._apply_known_pattern`: classify the error text by
substring presence, first match wins, and return that matcher's verdict
without falling through to another pattern class. -/
def _apply_known_pattern (fs : FS) (failure : Failure) : Bool × FS :=
  let error_msg := failure.error
  let file_name := failure.file
  if hasSub error_msg ("AttributeError".toList) then
    _quick_fix_missing_attribute fs file_name error_msg
  else if hasSub error_msg ("AssertionError".toList) then
    _quick_fix_assertion_mismatch fs file_name error_msg
  else if hasSub error_msg ("ImportError".toList) then
    _quick_fix_import_error fs file_name error_msg
  else if hasSub error_msg ("TypeError".toList) && hasSub error_msg ("missing".toList)
      && hasSub error_msg ("required positional argument".toList) then
    _quick_fix_type_error fs file_name error_msg
  else if hasSub error_msg ("IndentationError".toList) then
    _quick_fix_indentation fs file_name
  else (false, fs)

end DebugAgent

namespace DebugAgent

/-!
## The learning store and its JSON file

`_save_learning_db` is `json.dump(self.learning_db, f, indent=4)` and
`_load_learning_db` is `json.load`.  The stdlib codec is embedded here for
string-to-string objects: `jsonDump` reproduces the exact `indent=4` text
layout, and `jsonParse` the decoding.  The embedding is faithful for keys
and values made of printable ASCII plus newline, tab and carriage return
(other characters would be `\uXXXX`-escaped by `json.dump`, which this
model does not reproduce); `jsonSafe` names that domain.
-/

/-- The opening brace character. -/
def lbrace : Char := Char.ofNat 123

/-- The closing brace character. -/
def rbrace : Char := Char.ofNat 125

/-- Characters on which the embedded JSON codec agrees with the stdlib one. -/
def jsonSafe (c : Char) : Prop :=
  (32 ≤ c.toNat ∧ c.toNat < 127) ∨ c = '\n' ∨ c = '\t' ∨ c = '\r'

instance : DecidablePred jsonSafe := fun c => by unfold jsonSafe; infer_instance

/-- JSON string escaping as `json.dump` performs it on `jsonSafe` text. -/
def escChar (c : Char) : Str :=
  if c = '"' then ['\\', '"']
  else if c = '\\' then ['\\', '\\']
  else if c = '\n' then ['\\', 'n']
  else if c = '\t' then ['\\', 't']
  else if c = '\r' then ['\\', 'r']
  else [c]

/-- Escape a whole string. -/
def escStr : Str → Str
  | [] => []
  | c :: cs => escChar c ++ escStr cs

/-- One `indent=4` entry: four spaces, the quoted key, `: `, the quoted value. -/
def dumpEntry (kv : Str × Str) : Str :=
  ' ' :: ' ' :: ' ' :: ' ' :: '"' ::
    (escStr kv.1 ++ '"' :: ':' :: ' ' :: '"' :: (escStr kv.2 ++ ['"']))

/-- The entry block: entries joined by `,\n`. -/
def dumpEntries : List (Str × Str) → Str
  | [] => []
  | [kv] => dumpEntry kv
  | kv :: rest => dumpEntry kv ++ ',' :: '\n' :: dumpEntries rest

/-- `json.dump(db, f, indent=4)`: the exact text written to the DB file. -/
def jsonDump (db : List (Str × Str)) : Str :=
  match db with
  | [] => [lbrace, rbrace]
  | _ => lbrace :: '\n' :: (dumpEntries db ++ '\n' :: [rbrace])

/-- Skip JSON whitespace. -/
def skipWs (cs : Str) : Str :=
  cs.dropWhile (fun c => c = ' ' || c = '\n' || c = '\t' || c = '\r')

/-- Decode one escape character. -/
def unescChar (e : Char) : Option Char :=
  if e = '"' then some '"'
  else if e = '\\' then some '\\'
  else if e = 'n' then some '\n'
  else if e = 't' then some '\t'
  else if e = 'r' then some '\r'
  else none

/-- Parse the body of a JSON string up to its closing quote, undoing the
escapes; returns the decoded text and the rest after the quote. -/
def parseStrBody : Nat → Str → Option (Str × Str)
  | 0, _ => none
  | _ + 1, [] => none
  | fuel + 1, c :: cs =>
    if c = '"' then some ([], cs)
    else if c = '\\' then
      match cs with
      | [] => none
      | e :: cs' =>
        match unescChar e with
        | none => none
        | some d => (parseStrBody fuel cs').map (fun p => (d :: p.1, p.2))
    else (parseStrBody fuel cs).map (fun p => (c :: p.1, p.2))

/-- Parse a nonempty sequence of `"key": "value"` entries up to and
including the closing brace of the object. -/
def parseEntriesF : Nat → Str → Option (List (Str × Str) × Str)
  | 0, _ => none
  | fuel + 1, cs =>
    match skipWs cs with
    | [] => none
    | c0 :: rest =>
      if c0 = '"' then
        match parseStrBody rest.length rest with
        | none => none
        | some (k, rest1) =>
          match skipWs rest1 with
          | [] => none
          | c1 :: rest3 =>
            if c1 = ':' then
              match skipWs rest3 with
              | [] => none
              | c2 :: rest5 =>
                if c2 = '"' then
                  match parseStrBody rest5.length rest5 with
                  | none => none
                  | some (v, rest6) =>
                    match skipWs rest6 with
                    | [] => none
                    | c :: rest8 =>
                      if c = ',' then
                        (parseEntriesF fuel rest8).map
                          (fun p => ((k, v) :: p.1, p.2))
                      else if c = rbrace then some ([(k, v)], rest8)
                      else none
                else none
            else none
      else none

/-- `json.load` on a string-to-string object. -/
def jsonParse (cs : Str) : Option (List (Str × Str)) :=
  match skipWs cs with
  | [] => none
  | c :: rest =>
    if c = lbrace then
      match skipWs rest with
      | [] => none
      | c2 :: rest2 =>
        if c2 = rbrace then
          if (skipWs rest2).isEmpty then some [] else none
        else
          match parseEntriesF cs.length (c2 :: rest2) with
          | some (es, rest') => if (skipWs rest').isEmpty then some es else none
          | none => none
    else none

/-- `DebuggerAgent.LEARNING_DB_PATH`. -/
def LEARNING_DB_PATH : Str := "learning_db.json".toList

/-- Events recorded by the embedding at each external call site. -/
inductive Ev where
  | runTests
  | aiQuery
  | rollback
  | push
  deriving DecidableEq

/-- The agent state: the file system (which also holds the learning-DB
file), the in-memory `self.learning_db` dict, and the event trace. -/
structure St where
  fs : FS
  learning_db : List (Str × Str)
  trace : List Ev
  deriving DecidableEq

/-- Append an event to the trace. -/
def emit (st : St) (e : Ev) : St := ⟨st.fs, st.learning_db, st.trace ++ [e]⟩

/-- `DebuggerAgent._save_learning_db`: rewrite the whole DB file. -/
def _save_learning_db (st : St) : St :=
  ⟨st.fs.write LEARNING_DB_PATH (jsonDump st.learning_db), st.learning_db, st.trace⟩

/-- `DebuggerAgent._load_learning_db`: missing file or decode failure gives
an empty store. -/
def _load_learning_db (fs : FS) : List (Str × Str) :=
  if fs.existsF LEARNING_DB_PATH = false then []
  else (jsonParse (fs.read LEARNING_DB_PATH)).getD []

/-- `DebuggerAgent._store_learned_fix`: `self.learning_db[error_msg] = fix_str`
followed by an immediate save. -/
def _store_learned_fix (st : St) (error_msg fix_str : Str) : St :=
  _save_learning_db ⟨st.fs, dictSet st.learning_db error_msg fix_str, st.trace⟩

/-- `DebuggerAgent._search_learned_fix`: first stored key (in insertion
order) that occurs as a substring of the error message. -/
def _search_learned_fix (db : List (Str × Str)) (error_msg : Str) : Option Str :=
  (db.find? (fun p => hasSub error_msg p.1)).map Prod.snd

end DebugAgent

namespace DebugAgent

/-!
## External collaborators

`DebugAgentUtils` (code chunking, the Ollama/DeepSeek call, `unidiff`
parsing and patch application) and the stdlib JSON decoding of a learned
fix payload are not part of this file's source; per the spec they are
opaque collaborators, so the embedding takes them as parameters.  A patch
application that raises mid-mutation is modelled by `Except.error` carrying
the file system as the raise left it.
-/

/-- The decoded fields of a JSON learned-fix payload, as
`_apply_adaptive_learning_fix` reads them (`fix_data.get(...)`); `ftype`
is `fix_data.get("type")`.  Decode failure (`json.loads` raising) is the
`none` result of `Ext.loadJson`. -/
structure FixData where
  ftype : Option Str
  target_lines : List (Int × Str)
  diff_text : Str
  config_key : Str
  new_value : Str
  deriving DecidableEq

/-- The external collaborators of the dispatcher. -/
structure Ext where
  chunk : Str → List Str
  analyze : List Str → Str → Str
  parseDiff : Str → List Str
  applyPatch : List Str → List Str → FS → Except FS FS
  loadJson : Str → Option FixData

/-- Restore the target from its backup (`shutil.copy(backup_path, file_path)`). -/
def restoreFrom (fsP : FS) (file_path backup_path : Str) : FS :=
  fsP.write file_path (fsP.read backup_path)

/-- Modelled from the spec: `DebuggerAgent._update_config_key` is called but
absent from the source; per the spec it locates `key` in the file and
replaces its associated value, failing when the key is not found. -/
def replaceFirstConfig (key new_value : Str) : List Str → List Str
  | [] => []
  | l :: ls =>
    if hasSub l key then (key ++ " = ".toList ++ new_value ++ ['\n']) :: ls
    else l :: replaceFirstConfig key new_value ls

/-- Modelled from the spec: `_update_config_key` (absent from the source):
locate `key` in the file and replace its associated value; failure if the
key is not found (file left unchanged). -/
def _update_config_key (fs : FS) (path key new_value : Str) : Bool × FS :=
  let lines := readlines (fs.read path)
  if lines.any (fun l => hasSub l key) then
    (true, fs.write path (writelines (replaceFirstConfig key new_value lines)))
  else (false, fs)

/-- `os.path.normpath` on a relative POSIX path: drop empty and `.`
components and resolve `..` against preceding components. -/
def normParts : List Str → List Str → List Str
  | acc, [] => acc.reverse
  | acc, p :: ps =>
    if p = [] ∨ p = ['.'] then normParts acc ps
    else if p = ['.', '.'] then
      match acc with
      | [] => normParts [p] ps
      | q :: acc' =>
        if q = ['.', '.'] then normParts (p :: acc) ps else normParts acc' ps
    else normParts (p :: acc) ps

/-- `os.path.normpath` (relative POSIX paths; `""` normalizes to `"."`). -/
def normpath (p : Str) : Str :=
  match normParts [] (p.splitOn '/') with
  | [] => ['.']
  | parts => List.intercalate ['/'] parts

/-- The path correction of `_apply_adaptive_learning_fix`: normalize, strip
every leading `tests` component when the path mentions `tests`, and rejoin
(`os.path.join(*parts)`; the empty part list is modelled as the empty
path). -/
def adaptiveRel (file : Str) : Str :=
  let rel := normpath file
  if hasSub rel ("tests".toList) then
    List.intercalate ['/'] ((rel.splitOn '/').dropWhile (fun q => q = "tests".toList))
  else rel

/-- `os.path.abspath(os.path.join("tests", relative_path))`, with `abspath`
the identity in this working-directory-relative model. -/
def adaptivePath (file : Str) : Str := "tests/".toList ++ adaptiveRel file

/-- One `target_lines` element of a `snippet_inject` fix: insert the
stripped snippet after `line_no` when the index is within bounds;
out-of-range entries are skipped. -/
def applySnippet (lines : List Str) (tl : Int × Str) : List Str :=
  if 0 ≤ tl.1 ∧ tl.1 < (lines.length : Int) then
    insertAt lines (tl.1.toNat + 1) (pyStrip tl.2 ++ ['\n'])
  else lines

/-- `DebuggerAgent._apply_adaptive_learning_fix`: look up a learned fix for
the error; if found, back the target up, dispatch on the payload shape
(JSON `snippet_inject` / `unified_diff` / `config_update`, raw diff,
function or class source, otherwise unrecognized), and restore from the
backup if the application raises. -/
def _apply_adaptive_learning_fix (ext : Ext) (st : St) (failure : Failure) : Bool × St :=
  let error_msg := failure.error
  let file_path := adaptivePath failure.file
  if st.fs.existsF file_path = false then (false, st)
  else
    match _search_learned_fix st.learning_db error_msg with
    | none => (false, st)
    | some known_fix =>
      let backup_path := file_path ++ ".backup".toList
      let fs1 := st.fs.write backup_path (st.fs.read file_path)
      if [lbrace].isPrefixOf known_fix && hasSub known_fix ("type".toList) then
        match ext.loadJson known_fix with
        | none => (false, { st with fs := restoreFrom fs1 file_path backup_path })
        | some fix_data =>
          if fix_data.ftype = some ("snippet_inject".toList) then
            let file_lines := readlines (fs1.read file_path)
            let newContent := writelines (fix_data.target_lines.foldl applySnippet file_lines)
            (true, { st with fs := fs1.write file_path newContent })
          else if fix_data.ftype = some ("unified_diff".toList) then
            let patch_obj := ext.parseDiff fix_data.diff_text
            if patch_obj.isEmpty then (false, { st with fs := fs1 })
            else
              match ext.applyPatch [file_path] patch_obj fs1 with
              | .ok fs' => (true, { st with fs := fs' })
              | .error fsP =>
                (false, { st with fs := restoreFrom fsP file_path backup_path })
          else if fix_data.ftype = some ("config_update".toList) then
            let r := _update_config_key fs1 file_path fix_data.config_key fix_data.new_value
            if r.1 then (true, { st with fs := r.2 })
            else (false, { st with fs := r.2 })
          else (false, { st with fs := fs1 })
      else if hasSub known_fix ("diff --git".toList) then
        let patch_obj := ext.parseDiff known_fix
        if patch_obj.isEmpty then (false, { st with fs := fs1 })
        else
          match ext.applyPatch [file_path] patch_obj fs1 with
          | .ok fs' => (true, { st with fs := fs' })
          | .error fsP =>
            (false, { st with fs := restoreFrom fsP file_path backup_path })
      else if hasSub known_fix ("def ".toList) || hasSub known_fix ("class ".toList) then
        let appended := fs1.read file_path ++ '\n' :: (known_fix ++ ['\n'])
        (true, { st with fs := fs1.write file_path appended })
      else (false, { st with fs := fs1 })

/-- `DebuggerAgent._apply_ollama_deepseek_fix`: chunk the file, query the
LLM (recorded as an `aiQuery` event), parse the suggestion as a patch set
and apply it.  There is no backup here; an exception during patch
application is caught and reported as failure, leaving the file system as
the failed application left it. -/
def _apply_ollama_deepseek_fix (ext : Ext) (st : St) (failure : Failure) : Bool × St :=
  let file_path := "tests/".toList ++ failure.file
  if st.fs.existsF file_path = false then (false, st)
  else
    let file_content := st.fs.read file_path
    let chunks := ext.chunk file_content
    let suggestion := ext.analyze chunks failure.error
    let st1 := emit st .aiQuery
    let patch_obj := ext.parseDiff suggestion
    if patch_obj.isEmpty then (false, st1)
    else
      match ext.applyPatch [file_path] patch_obj st1.fs with
      | .ok fs' => (true, { st1 with fs := fs' })
      | .error fsP => (false, { st1 with fs := fsP })

/-- The sentinel payload stored after a successful LLM fix. -/
def llmSentinel : Str := "LLM-based patch (not real code)".toList

/-- `DebuggerAgent.apply_fix`: pattern tier, then learned tier, then the
LLM tier, short-circuiting on the first success; a successful LLM fix
stores the full error text with the sentinel payload and saves the DB. -/
def apply_fix (ext : Ext) (st : St) (failure : Failure) : Bool × St :=
  let r1 := _apply_known_pattern st.fs failure
  if r1.1 then (true, { st with fs := r1.2 })
  else
    let r2 := _apply_adaptive_learning_fix ext { st with fs := r1.2 } failure
    if r2.1 then (true, r2.2)
    else
      let r3 := _apply_ollama_deepseek_fix ext r2.2 failure
      if r3.1 then (true, _store_learned_fix r3.2 failure.error llmSentinel)
      else (false, r3.2)

/-- `DebuggerAgent.rollback_changes`: delegate to the VCS collaborator
(recorded as a `rollback` event) unless the file list is empty. -/
def rollback_changes (st : St) (files_modified : List Str) : St :=
  if files_modified.isEmpty then st else emit st .rollback

/-- `DebuggerAgent.push_to_github` (recorded as a `push` event). -/
def push_to_github (st : St) : St := emit st .push

/-- The terminal outcomes of `retry_tests` (the returned status/message
dicts: `"All tests passed!"`, `"Could not fix <file> automatically."`,
`"Max retries reached. Unresolved issues remain."`). -/
inductive DebugResult where
  | success
  | couldNotFix (file : Str)
  | maxRetriesReached
  deriving DecidableEq

/-- The inner `for failure in failures` loop of `retry_tests`: apply fixes
in order; a failure is accepted when `fix_ok` holds **and** its file is not
already in `modified_files`; otherwise roll back and abort with that
file. -/
def fixLoop (ext : Ext) : List Failure → List Str → St → Option Str × List Str × St
  | [], mods, st => (none, mods, st)
  | failure :: rest, mods, st =>
    let r := apply_fix ext st failure
    if r.1 && !(mods.contains failure.file) then
      fixLoop ext rest (mods ++ [failure.file]) r.2
    else (some failure.file, mods, rollback_changes r.2 mods)

/-- The attempt loop of `retry_tests`; `outs n` is the test output of the
`n`-th run of the external test runner, and `modified_files` persists
across attempts. -/
def retryAux (ext : Ext) (outs : Nat → Str) :
    Nat → Nat → List Str → St → DebugResult × St
  | _, 0, _, st => (.maxRetriesReached, st)
  | attempt, r + 1, mods, st =>
    let st0 := emit st .runTests
    let failures := parse_test_failures (outs attempt)
    if failures.isEmpty then (.success, push_to_github st0)
    else
      match fixLoop ext failures mods st0 with
      | (some file, _, st') => (.couldNotFix file, st')
      | (none, mods', st') => retryAux ext outs (attempt + 1) r mods' st'

/-- `DebuggerAgent.retry_tests`. -/
def retry_tests (ext : Ext) (outs : Nat → Str) (max_retries : Nat) (st : St) :
    DebugResult × St :=
  retryAux ext outs 1 max_retries [] st

end DebugAgent
namespace DebugAgent

/-!
## Association-list and file-system lemmas
-/

theorem dictSet_keys_of_mem {d : List (Str × Str)} {k v : Str}
    (h : d.any (fun p => p.1 == k) = true) :
    (dictSet d k v).map Prod.fst = d.map Prod.fst ∧
    (dictSet d k v).length = d.length := by
  unfold dictSet
  rw [if_pos h]
  refine ⟨?_, by simp⟩
  rw [List.map_map]
  apply List.map_congr_left
  intro p _
  by_cases hik : p.1 = k
  · simp [hik]
  · simp [hik]

theorem find?_dictSet_self (d : List (Str × Str)) (k v : Str) :
    ((dictSet d k v).find? (fun p => p.1 == k)).map Prod.snd = some v := by
  unfold dictSet
  split
  · rename_i h
    induction d with
    | nil => simp at h
    | cons e es ih =>
      by_cases he : e.1 = k
      · have hmap : List.map (fun p => if p.1 == k then (k, v) else p) (e :: es) =
            (k, v) :: List.map (fun p => if p.1 == k then (k, v) else p) es := by
          simp [he]
        rw [hmap, List.find?_cons_of_pos _ (by simp)]
        rfl
      · simp only [List.any_cons, beq_eq_false_iff_ne.2 he, Bool.false_or] at h
        have hmap : List.map (fun p => if p.1 == k then (k, v) else p) (e :: es) =
            e :: List.map (fun p => if p.1 == k then (k, v) else p) es := by
          simp [he]
        rw [hmap, List.find?_cons_of_neg _ (by simp [he])]
        exact ih h
  · rename_i h
    have h' : ∀ e ∈ d, (e.1 == k) = false := by
      intro e he
      cases hc : (e.1 == k) with
      | false => rfl
      | true => exact absurd (List.any_eq_true.2 ⟨e, he, hc⟩) h
    rw [List.find?_append]
    have hd : d.find? (fun p => p.1 == k) = none :=
      List.find?_eq_none.2 (fun e he => by simp [h' e he])
    rw [hd]
    simp

theorem find?_mapUpdate_ne {es : List (Str × Str)} {k v q : Str} (hne : q ≠ k) :
    List.find? (fun p => p.1 == q)
      (es.map (fun p => if p.1 == k then (k, v) else p)) =
    List.find? (fun p => p.1 == q) es := by
  induction es with
  | nil => simp
  | cons e es ih =>
    by_cases hek : e.1 = k
    · have hkq : ¬((k : Str) = q) := fun hkq => hne hkq.symm
      have heq : ¬(e.1 = q) := by rw [hek]; exact hkq
      have hmap : List.map (fun p => if p.1 == k then (k, v) else p) (e :: es) =
          (k, v) :: List.map (fun p => if p.1 == k then (k, v) else p) es := by
        simp [hek]
      rw [hmap, List.find?_cons_of_neg _ (by simp [hkq]),
        List.find?_cons_of_neg _ (by simp [heq])]
      exact ih
    · have hmap : List.map (fun p => if p.1 == k then (k, v) else p) (e :: es) =
          e :: List.map (fun p => if p.1 == k then (k, v) else p) es := by
        simp [hek]
      rw [hmap]
      by_cases heq : e.1 = q
      · rw [List.find?_cons_of_pos _ (by simp [heq]),
          List.find?_cons_of_pos _ (by simp [heq])]
      · rw [List.find?_cons_of_neg _ (by simp [heq]),
          List.find?_cons_of_neg _ (by simp [heq])]
        exact ih

theorem find?_dictSet_ne {d : List (Str × Str)} {k v q : Str} (hne : q ≠ k) :
    (dictSet d k v).find? (fun p => p.1 == q) = d.find? (fun p => p.1 == q) := by
  unfold dictSet
  split
  · exact find?_mapUpdate_ne hne
  · rw [List.find?_append]
    have hkv : List.find? (fun p => p.1 == q) [(k, v)] = none := by
      rw [List.find?_cons_of_neg _ (by simp; exact fun hkq => hne hkq.symm)]
      rfl
    rw [hkv]
    simp

theorem FS.read_write_self (fs : FS) (p c : Str) : (fs.write p c).read p = c := by
  unfold FS.read FS.write
  rw [show (FS.mk (dictSet fs.files p c)).files = dictSet fs.files p c from rfl,
    find?_dictSet_self]
  rfl

theorem FS.read_write_ne (fs : FS) {p q : Str} (c : Str) (hne : q ≠ p) :
    (fs.write p c).read q = fs.read q := by
  unfold FS.read FS.write
  rw [show (FS.mk (dictSet fs.files p c)).files = dictSet fs.files p c from rfl,
    find?_dictSet_ne hne]

theorem existsF_eq_isSome_find? (fs : FS) (p : Str) :
    fs.existsF p = (fs.files.find? (fun q => q.1 == p)).isSome := by
  unfold FS.existsF
  induction fs.files with
  | nil => simp
  | cons e es ih =>
    by_cases he : e.1 = p
    · rw [List.find?_cons_of_pos _ (by simp [he])]
      simp [he]
    · rw [List.find?_cons_of_neg _ (by simp [he])]
      simp only [List.any_cons, beq_eq_false_iff_ne.2 he, Bool.false_or]
      exact ih

theorem FS.existsF_write_self (fs : FS) (p c : Str) :
    (fs.write p c).existsF p = true := by
  rw [existsF_eq_isSome_find?]
  have h := find?_dictSet_self fs.files p c
  rw [show (FS.write fs p c).files = dictSet fs.files p c from rfl]
  rcases hf : (dictSet fs.files p c).find? (fun q => q.1 == p) with _ | e
  · rw [hf] at h; simp at h
  · rw [hf]; rfl

theorem FS.existsF_write_ne (fs : FS) {p q : Str} (c : Str) (hne : q ≠ p) :
    (fs.write p c).existsF q = fs.existsF q := by
  rw [existsF_eq_isSome_find?, existsF_eq_isSome_find?]
  rw [show (FS.write fs p c).files = dictSet fs.files p c from rfl,
    find?_dictSet_ne hne]

/-- The backup path differs from the target path. -/
theorem backup_ne (p : Str) : p ++ ".backup".toList ≠ p := by
  intro h
  have := congrArg List.length h
  simp at this

end DebugAgent
namespace DebugAgent

theorem dictSet_of_not_mem {d : List (Str × Str)} {k v : Str}
    (h : d.any (fun p => p.1 == k) = false) :
    dictSet d k v = d ++ [(k, v)] := by
  unfold dictSet
  rw [if_neg (by simp [h])]

/-- C10: storing a learned fix under an error text character-for-character
identical to an existing key replaces that entry's payload in place — the
mapping's entry count does not grow, the key list (hence each key's
insertion position) is unchanged, and the key now maps to the new payload;
only a distinct error string appends a new entry at the end. -/
theorem C10_store_replaces_in_place (st : St) (k v : Str) :
    (st.learning_db.any (fun p => p.1 == k) = true →
      (_store_learned_fix st k v).learning_db.length = st.learning_db.length ∧
      (_store_learned_fix st k v).learning_db.map Prod.fst =
        st.learning_db.map Prod.fst ∧
      (((_store_learned_fix st k v).learning_db.find?
        (fun p => p.1 == k)).map Prod.snd) = some v) ∧
    (st.learning_db.any (fun p => p.1 == k) = false →
      (_store_learned_fix st k v).learning_db = st.learning_db ++ [(k, v)]) := by
  have hdb : (_store_learned_fix st k v).learning_db = dictSet st.learning_db k v := rfl
  constructor
  · intro h
    rw [hdb]
    exact ⟨(dictSet_keys_of_mem h).2, (dictSet_keys_of_mem h).1,
      find?_dictSet_self _ _ _⟩
  · intro h
    rw [hdb]
    exact dictSet_of_not_mem h

theorem C10_store_replaces_in_place_witness :
    ((_store_learned_fix ⟨⟨[]⟩, [("a".toList, "1".toList), ("b".toList, "2".toList)], []⟩
        "a".toList ("9".toList)).learning_db.length = 2 ∧
      (_store_learned_fix ⟨⟨[]⟩, [("a".toList, "1".toList), ("b".toList, "2".toList)], []⟩
        "a".toList ("9".toList)).learning_db.map Prod.fst = ["a".toList, "b".toList]) ∧
    (_store_learned_fix ⟨⟨[]⟩, [("a".toList, "1".toList)], []⟩
      "c".toList ("9".toList)).learning_db =
      [("a".toList, "1".toList), ("c".toList, "9".toList)] := by
  refine ⟨⟨?_, ?_⟩, ?_⟩
  · exact ((C10_store_replaces_in_place
      ⟨⟨[]⟩, [("a".toList, "1".toList), ("b".toList, "2".toList)], []⟩
      "a".toList ("9".toList)).1 (by decide)).1
  · have := ((C10_store_replaces_in_place
      ⟨⟨[]⟩, [("a".toList, "1".toList), ("b".toList, "2".toList)], []⟩
      "a".toList ("9".toList)).1 (by decide)).2.1
    rw [this]
    decide
  · exact (C10_store_replaces_in_place ⟨⟨[]⟩, [("a".toList, "1".toList)], []⟩
      "c".toList ("9".toList)).2 (by decide)

end DebugAgent
namespace DebugAgent

/-!
## File-content lemmas for the pattern matchers
-/

theorem readlines_ne_nil {cs : Str} (h : cs ≠ []) : readlines cs ≠ [] := by
  cases cs with
  | nil => exact absurd rfl h
  | cons c cs' =>
    unfold readlines
    split
    · simp
    · split <;> simp

theorem writelines_readlines (c : Str) : writelines (readlines c) = c := by
  induction c with
  | nil => rfl
  | cons ch cs ih =>
    unfold readlines
    split
    · rename_i hnl
      subst hnl
      simpa [writelines] using ih
    · rename_i hnl
      rcases hr : readlines cs with _ | ⟨l, ls⟩
      · have : cs = [] := by
          by_contra hne
          exact readlines_ne_nil hne hr
        subst this
        simp [writelines]
      · rw [hr] at ih
        simp only [writelines, List.flatten_cons, List.cons_append]
        rw [show (l ++ (ls.flatten : Str)) = writelines (l :: ls) from rfl, ih]

theorem replaceTabs_append (a b : Str) :
    replaceTabs (a ++ b) = replaceTabs a ++ replaceTabs b := by
  induction a with
  | nil => rfl
  | cons c cs ih =>
    by_cases hc : c = '\t' <;> simp [replaceTabs, hc, ih]

theorem writelines_map_replaceTabs (ls : List Str) :
    writelines (ls.map replaceTabs) = replaceTabs (writelines ls) := by
  induction ls with
  | nil => rfl
  | cons l ls ih =>
    simp only [List.map_cons, writelines, List.flatten_cons, replaceTabs_append]
    rw [show (ls.map replaceTabs).flatten = writelines (ls.map replaceTabs) from rfl,
      show (ls.flatten : Str) = writelines ls from rfl, ih]

theorem replaceTabs_idem (s : Str) : replaceTabs (replaceTabs s) = replaceTabs s := by
  induction s with
  | nil => rfl
  | cons c cs ih =>
    by_cases hc : c = '\t'
    · simp [replaceTabs, hc, ih]
    · simp [replaceTabs, hc, ih]

theorem insertAfterClass_no_match {key stub : Str} {ls : List Str}
    (h : ∀ l ∈ ls, hasSub l key = false) :
    insertAfterClass key stub ls = ls := by
  induction ls with
  | nil => rfl
  | cons l ls ih =>
    unfold insertAfterClass
    rw [if_neg (by simp [h l (by simp)])]
    rw [ih (fun x hx => h x (by simp [hx]))]

theorem fixFirstAssert_none {actual : Str} {ls : List Str}
    (h : ∀ l ∈ ls, (hasSub l ("assert ".toList) && hasSub l ("==".toList)) = false) :
    fixFirstAssert actual ls = none := by
  induction ls with
  | nil => rfl
  | cons l ls ih =>
    unfold fixFirstAssert
    have hl := h l (by simp)
    rw [if_neg (by rw [hl]; simp)]
    rw [ih (fun x hx => h x (by simp [hx]))]
    rfl

end DebugAgent

namespace DebugAgent

/-!
Rewrite-friendly (definitional) equations for the matchers, with the
`let`-bindings of the definitions expanded.
-/

theorem _quick_fix_indentation_eq (fs : FS) (file : Str) :
    _quick_fix_indentation fs file =
      if fs.existsF ("tests/".toList ++ file) = false then (false, fs)
      else (true, fs.write ("tests/".toList ++ file)
        (writelines ((readlines (fs.read ("tests/".toList ++ file))).map
          replaceTabs))) := rfl

theorem _quick_fix_missing_attribute_eq (fs : FS) (file e : Str) :
    _quick_fix_missing_attribute fs file e =
      match searchAttr e with
      | none => (false, fs)
      | some (cn, attr) =>
        if fs.existsF ("tests/".toList ++ file) = false then (false, fs)
        else (true, fs.write ("tests/".toList ++ file)
          (writelines (insertAfterClass ("class ".toList ++ cn)
            ("    def ".toList ++ attr ++ "(self):\n        pass\n\n".toList)
            (readlines (fs.read ("tests/".toList ++ file)))))) := rfl

theorem _quick_fix_assertion_mismatch_eq (fs : FS) (file e : Str) :
    _quick_fix_assertion_mismatch fs file e =
      match searchAssertErr e with
      | none => (false, fs)
      | some (_, ac) =>
        if fs.existsF ("tests/".toList ++ file) = false then (false, fs)
        else
          match fixFirstAssert ac (readlines (fs.read ("tests/".toList ++ file))) with
          | none => (false, fs)
          | some lines' => (true, fs.write ("tests/".toList ++ file)
              (writelines lines')) := rfl

theorem _quick_fix_import_error_eq (fs : FS) (file e : Str) :
    _quick_fix_import_error fs file e =
      match searchImport e with
      | none => (false, fs)
      | some mod =>
        if fs.existsF ("tests/".toList ++ file) = false then (false, fs)
        else if (readlines (fs.read ("tests/".toList ++ file))).any
            (fun l => hasSub l ("import".toList) && hasSub l mod) then (false, fs)
        else (true, fs.write ("tests/".toList ++ file)
          (writelines (("import ".toList ++ mod ++ ['\n']) ::
            readlines (fs.read ("tests/".toList ++ file))))) := rfl

theorem _quick_fix_type_error_eq (fs : FS) (file e : Str) :
    _quick_fix_type_error fs file e =
      match searchTypeErr e with
      | none => (false, fs)
      | some (fn, n) =>
        if fs.existsF ("tests/".toList ++ file) = false then (false, fs)
        else if (readlines (fs.read ("tests/".toList ++ file))).any
            (fun l => searchCall fn l) then
          (true, fs.write ("tests/".toList ++ file)
            (writelines ((readlines (fs.read ("tests/".toList ++ file))).map
              (fun l => if searchCall fn l then
                subCall fn (List.intercalate (", ".toList)
                  (List.replicate n ("None".toList))) l else l))))
        else (false, fs) := rfl

end DebugAgent
namespace DebugAgent

/-- C8: the indentation fix is idempotent — a second application returns the
same verdict and the same file content as the first — and every other
pattern matcher, run when no further match exists (no regex match on the
error text, no class line, no assert line, module already imported, no call
site), leaves the file content unchanged and returns a verdict instead of
raising. -/
theorem C8_matchers_idempotent (fs : FS) (file e : Str) :
    ((_quick_fix_indentation (_quick_fix_indentation fs file).2 file).1 =
        (_quick_fix_indentation fs file).1 ∧
      (_quick_fix_indentation (_quick_fix_indentation fs file).2 file).2.read
          ("tests/".toList ++ file) =
        (_quick_fix_indentation fs file).2.read ("tests/".toList ++ file)) ∧
    (searchAttr e = none → _quick_fix_missing_attribute fs file e = (false, fs)) ∧
    (∀ cn attr, searchAttr e = some (cn, attr) →
      (∀ l ∈ readlines (fs.read ("tests/".toList ++ file)),
          hasSub l ("class ".toList ++ cn) = false) →
      (_quick_fix_missing_attribute fs file e).2.read ("tests/".toList ++ file) =
        fs.read ("tests/".toList ++ file)) ∧
    ((∀ l ∈ readlines (fs.read ("tests/".toList ++ file)),
        (hasSub l ("assert ".toList) && hasSub l ("==".toList)) = false) →
      _quick_fix_assertion_mismatch fs file e = (false, fs)) ∧
    (∀ mod, searchImport e = some mod →
      (readlines (fs.read ("tests/".toList ++ file))).any
          (fun l => hasSub l ("import".toList) && hasSub l mod) = true →
      _quick_fix_import_error fs file e = (false, fs)) ∧
    (∀ fn n, searchTypeErr e = some (fn, n) →
      (readlines (fs.read ("tests/".toList ++ file))).any
          (fun l => searchCall fn l) = false →
      _quick_fix_type_error fs file e = (false, fs)) := by
  refine ⟨?_, ?_, ?_, ?_, ?_, ?_⟩
  · rcases hex : fs.existsF ("tests/".toList ++ file) with _ | _
    · have h1 : _quick_fix_indentation fs file = (false, fs) := by
        rw [_quick_fix_indentation_eq, if_pos hex]
      rw [h1, h1]
      exact ⟨rfl, rfl⟩
    · have h1 : _quick_fix_indentation fs file =
          (true, fs.write ("tests/".toList ++ file)
            (replaceTabs (fs.read ("tests/".toList ++ file)))) := by
        rw [_quick_fix_indentation_eq, if_neg (by rw [hex]; simp),
          writelines_map_replaceTabs, writelines_readlines]
      have hex2 : (fs.write ("tests/".toList ++ file)
          (replaceTabs (fs.read ("tests/".toList ++ file)))).existsF
          ("tests/".toList ++ file) = true := FS.existsF_write_self _ _ _
      have h2 : _quick_fix_indentation (fs.write ("tests/".toList ++ file)
          (replaceTabs (fs.read ("tests/".toList ++ file)))) file =
          (true, (fs.write ("tests/".toList ++ file)
            (replaceTabs (fs.read ("tests/".toList ++ file)))).write
            ("tests/".toList ++ file)
            (replaceTabs ((fs.write ("tests/".toList ++ file)
              (replaceTabs (fs.read ("tests/".toList ++ file)))).read
              ("tests/".toList ++ file)))) := by
        rw [_quick_fix_indentation_eq, if_neg (by rw [hex2]; simp),
          writelines_map_replaceTabs, writelines_readlines]
      rw [h1, h2]
      refine ⟨rfl, ?_⟩
      rw [FS.read_write_self, FS.read_write_self, replaceTabs_idem]
  · intro h
    rw [_quick_fix_missing_attribute_eq, h]
  · intro cn attr hm hnc
    rw [_quick_fix_missing_attribute_eq, hm]
    rcases hex : fs.existsF ("tests/".toList ++ file) with _ | _
    · rfl
    · dsimp only
      rw [insertAfterClass_no_match hnc, writelines_readlines,
        if_neg (show ¬(true = false) by simp)]
      exact FS.read_write_self _ _ _
  · intro h
    rw [_quick_fix_assertion_mismatch_eq]
    rcases hs : searchAssertErr e with _ | ⟨ex, ac⟩
    · rfl
    · rcases hex : fs.existsF ("tests/".toList ++ file) with _ | _
      · rfl
      · dsimp only
        rw [fixFirstAssert_none h]
        simp
  · intro mod hm hany
    rw [_quick_fix_import_error_eq, hm]
    rcases hex : fs.existsF ("tests/".toList ++ file) with _ | _
    · rfl
    · dsimp only
      rw [if_neg (show ¬(true = false) by simp), if_pos hany]
  · intro fn n hm hany
    rw [_quick_fix_type_error_eq, hm]
    rcases hex : fs.existsF ("tests/".toList ++ file) with _ | _
    · rfl
    · dsimp only
      rw [if_neg (show ¬(true = false) by simp), if_neg (by rw [hany]; simp)]

theorem C8_matchers_idempotent_witness :
    (_quick_fix_missing_attribute ⟨[]⟩ "a.py".toList ("nope".toList) = (false, ⟨[]⟩)) ∧
    (_quick_fix_import_error ⟨[("tests/a.py".toList, "import xyz\n".toList)]⟩
      "a.py".toList ("No module named 'xyz'".toList) =
      (false, ⟨[("tests/a.py".toList, "import xyz\n".toList)]⟩)) := by
  constructor
  · exact (C8_matchers_idempotent ⟨[]⟩ "a.py".toList ("nope".toList)).2.1 (by decide)
  · exact (C8_matchers_idempotent ⟨[("tests/a.py".toList, "import xyz\n".toList)]⟩
      "a.py".toList ("No module named 'xyz'".toList)).2.2.2.2.1
      ("xyz".toList) (by decide) (by decide)

end DebugAgent
namespace DebugAgent

/-- C9 counterexample: the file `tests/a.py` contains only `import xyzzy`,
so no import of the module `xyz` exists in it, and the error text names
`xyz`; the claim mandates inserting `import xyz` at line 0 and reporting
success, but the matcher's substring test counts the `import xyzzy` line as
an existing import of `xyz`, reports failure and leaves the file
unchanged. -/
theorem C9_cex :
    searchImport ("No module named 'xyz'".toList) = some ("xyz".toList) ∧
    _quick_fix_import_error ⟨[("tests/a.py".toList, "import xyzzy\n".toList)]⟩
        "a.py".toList ("No module named 'xyz'".toList) =
      (false, ⟨[("tests/a.py".toList, "import xyzzy\n".toList)]⟩) := by
  constructor
  · decide
  · decide

/-- C9 (amended): the matcher extracts `<mod>` from
`No module named '<mod>'`; if some line of the target file contains both
the substring `import` and the substring `<mod>`, it reports failure and
leaves the file unchanged; otherwise it prepends `import <mod>` as a new
line 0 and reports success. -/
theorem C9_import_fix (fs : FS) (file e mod : Str)
    (hm : searchImport e = some mod)
    (hex : fs.existsF ("tests/".toList ++ file) = true) :
    ((readlines (fs.read ("tests/".toList ++ file))).any
        (fun l => hasSub l ("import".toList) && hasSub l mod) = true →
      _quick_fix_import_error fs file e = (false, fs)) ∧
    ((readlines (fs.read ("tests/".toList ++ file))).any
        (fun l => hasSub l ("import".toList) && hasSub l mod) = false →
      (_quick_fix_import_error fs file e).1 = true ∧
      (_quick_fix_import_error fs file e).2.read ("tests/".toList ++ file) =
        "import ".toList ++ mod ++ '\n' :: fs.read ("tests/".toList ++ file)) := by
  rw [_quick_fix_import_error_eq, hm]
  dsimp only
  rw [if_neg (by rw [hex]; simp)]
  constructor
  · intro hany
    rw [if_pos hany]
  · intro hany
    rw [if_neg (by rw [hany]; simp)]
    refine ⟨rfl, ?_⟩
    dsimp only
    rw [FS.read_write_self]
    rw [show writelines (("import ".toList ++ mod ++ ['\n']) ::
        readlines (fs.read ("tests/".toList ++ file))) =
      ("import ".toList ++ mod ++ ['\n']) ++
        writelines (readlines (fs.read ("tests/".toList ++ file))) from rfl]
    rw [writelines_readlines]
    simp

theorem C9_import_fix_witness :
    (_quick_fix_import_error ⟨[("tests/a.py".toList, "x = 1\n".toList)]⟩
      "a.py".toList ("No module named 'xyz'".toList)).1 = true ∧
    (_quick_fix_import_error ⟨[("tests/a.py".toList, "x = 1\n".toList)]⟩
        "a.py".toList ("No module named 'xyz'".toList)).2.read
        ("tests/a.py".toList) =
      "import xyz\nx = 1\n".toList := by
  have h := (C9_import_fix ⟨[("tests/a.py".toList, "x = 1\n".toList)]⟩
    "a.py".toList ("No module named 'xyz'".toList) "xyz".toList
    (by decide) (by decide)).2 (by decide)
  refine ⟨h.1, ?_⟩
  show (_quick_fix_import_error ⟨[("tests/a.py".toList, "x = 1\n".toList)]⟩
      "a.py".toList ("No module named 'xyz'".toList)).2.read
      ("tests/".toList ++ "a.py".toList) = "import xyz\nx = 1\n".toList
  rw [h.2]
  decide

end DebugAgent
namespace DebugAgent

theorem _update_config_key_read_ne (fs : FS) (path key nv q : Str) (h : q ≠ path) :
    (_update_config_key fs path key nv).2.read q = fs.read q := by
  unfold _update_config_key
  dsimp only
  split
  · exact FS.read_write_ne _ _ h
  · rfl

theorem _update_config_key_false {fs : FS} {path key nv : Str}
    (h : (_update_config_key fs path key nv).1 = false) :
    (_update_config_key fs path key nv).2 = fs := by
  unfold _update_config_key at *
  dsimp only at h ⊢
  split at h
  · simp at h
  · rename_i hc
    rw [if_neg hc]

theorem _apply_adaptive_learning_fix_eq (ext : Ext) (st : St) (f : Failure) :
    _apply_adaptive_learning_fix ext st f =
      if st.fs.existsF (adaptivePath f.file) = false then (false, st)
      else
        match _search_learned_fix st.learning_db f.error with
        | none => (false, st)
        | some known_fix =>
          if [lbrace].isPrefixOf known_fix && hasSub known_fix ("type".toList) then
            match ext.loadJson known_fix with
            | none => (false, St.mk
                (restoreFrom (st.fs.write (adaptivePath f.file ++ ".backup".toList) (st.fs.read (adaptivePath f.file))) (adaptivePath f.file) (adaptivePath f.file ++ ".backup".toList)) st.learning_db st.trace)
            | some fix_data =>
              if fix_data.ftype = some ("snippet_inject".toList) then
                (true, St.mk
                  ((st.fs.write (adaptivePath f.file ++ ".backup".toList) (st.fs.read (adaptivePath f.file))).write (adaptivePath f.file)
                    (writelines (fix_data.target_lines.foldl applySnippet
                      (readlines ((st.fs.write (adaptivePath f.file ++ ".backup".toList) (st.fs.read (adaptivePath f.file))).read (adaptivePath f.file))))))
                  st.learning_db st.trace)
              else if fix_data.ftype = some ("unified_diff".toList) then
                if (ext.parseDiff fix_data.diff_text).isEmpty then
                  (false, St.mk (st.fs.write (adaptivePath f.file ++ ".backup".toList) (st.fs.read (adaptivePath f.file))) st.learning_db st.trace)
                else
                  match ext.applyPatch [adaptivePath f.file]
                      (ext.parseDiff fix_data.diff_text) (st.fs.write (adaptivePath f.file ++ ".backup".toList) (st.fs.read (adaptivePath f.file))) with
                  | .ok fs' => (true, St.mk fs' st.learning_db st.trace)
                  | .error fsP => (false, St.mk
                      (restoreFrom fsP (adaptivePath f.file) (adaptivePath f.file ++ ".backup".toList)) st.learning_db st.trace)
              else if fix_data.ftype = some ("config_update".toList) then
                if (_update_config_key (st.fs.write (adaptivePath f.file ++ ".backup".toList) (st.fs.read (adaptivePath f.file))) (adaptivePath f.file)
                    fix_data.config_key fix_data.new_value).1 then
                  (true, St.mk
                    ((_update_config_key (st.fs.write (adaptivePath f.file ++ ".backup".toList) (st.fs.read (adaptivePath f.file))) (adaptivePath f.file)
                      fix_data.config_key fix_data.new_value).2)
                    st.learning_db st.trace)
                else
                  (false, St.mk
                    ((_update_config_key (st.fs.write (adaptivePath f.file ++ ".backup".toList) (st.fs.read (adaptivePath f.file))) (adaptivePath f.file)
                      fix_data.config_key fix_data.new_value).2)
                    st.learning_db st.trace)
              else (false, St.mk (st.fs.write (adaptivePath f.file ++ ".backup".toList) (st.fs.read (adaptivePath f.file))) st.learning_db st.trace)
          else if hasSub known_fix ("diff --git".toList) then
            if (ext.parseDiff known_fix).isEmpty then
              (false, St.mk (st.fs.write (adaptivePath f.file ++ ".backup".toList) (st.fs.read (adaptivePath f.file))) st.learning_db st.trace)
            else
              match ext.applyPatch [adaptivePath f.file]
                  (ext.parseDiff known_fix) (st.fs.write (adaptivePath f.file ++ ".backup".toList) (st.fs.read (adaptivePath f.file))) with
              | .ok fs' => (true, St.mk fs' st.learning_db st.trace)
              | .error fsP => (false, St.mk
                  (restoreFrom fsP (adaptivePath f.file) (adaptivePath f.file ++ ".backup".toList)) st.learning_db st.trace)
          else if hasSub known_fix ("def ".toList) ||
              hasSub known_fix ("class ".toList) then
            (true, St.mk
              ((st.fs.write (adaptivePath f.file ++ ".backup".toList) (st.fs.read (adaptivePath f.file))).write (adaptivePath f.file)
                ((st.fs.write (adaptivePath f.file ++ ".backup".toList) (st.fs.read (adaptivePath f.file))).read (adaptivePath f.file) ++ '\n' :: (known_fix ++ ['\n'])))
              st.learning_db st.trace)
          else (false, St.mk (st.fs.write (adaptivePath f.file ++ ".backup".toList) (st.fs.read (adaptivePath f.file))) st.learning_db st.trace) := rfl

end DebugAgent
namespace DebugAgent

/-- C2 (amended): the learned tier's mutations are backup-guarded.  For any
patch applier that touches only the files it is handed, whenever
`_apply_adaptive_learning_fix` reports failure — including an exception during
apply, modelled by `Except.error` carrying the file system as the raise left
it — the target file's contents equal its contents before the call (exact
restore), and whenever it reports success the `<target>.backup` file made
before the mutation still holds the pre-mutation contents (the backup is
left in place). -/
theorem C2_backup_guard (ext : Ext) (st : St) (f : Failure)
    (htouch : ∀ ps patch fs q, q ∉ ps →
      (∀ fs', ext.applyPatch ps patch fs = .ok fs' → fs'.read q = fs.read q) ∧
      (∀ fs', ext.applyPatch ps patch fs = .error fs' → fs'.read q = fs.read q)) :
    ((_apply_adaptive_learning_fix ext st f).1 = false →
      (_apply_adaptive_learning_fix ext st f).2.fs.read (adaptivePath f.file) =
        st.fs.read (adaptivePath f.file)) ∧
    ((_apply_adaptive_learning_fix ext st f).1 = true →
      (_apply_adaptive_learning_fix ext st f).2.fs.read
          (adaptivePath f.file ++ ".backup".toList) =
        st.fs.read (adaptivePath f.file)) := by
  have hpb : adaptivePath f.file ≠ adaptivePath f.file ++ ".backup".toList :=
    fun h => backup_ne _ h.symm
  have hbp : adaptivePath f.file ++ ".backup".toList ∉ [adaptivePath f.file] := by
    simp only [List.mem_singleton]
    exact fun h => backup_ne _ h
  have hr1 : (st.fs.write (adaptivePath f.file ++ ".backup".toList)
      (st.fs.read (adaptivePath f.file))).read (adaptivePath f.file) =
      st.fs.read (adaptivePath f.file) := FS.read_write_ne _ _ hpb
  have hrb : (st.fs.write (adaptivePath f.file ++ ".backup".toList)
      (st.fs.read (adaptivePath f.file))).read
      (adaptivePath f.file ++ ".backup".toList) =
      st.fs.read (adaptivePath f.file) := FS.read_write_self _ _ _
  rw [_apply_adaptive_learning_fix_eq]
  split
  · exact ⟨fun _ => rfl, by simp⟩
  · split
    · exact ⟨fun _ => rfl, by simp⟩
    · rename_i known_fix hkf
      split
      · split
        · refine ⟨fun _ => ?_, by simp⟩
          unfold restoreFrom
          rw [FS.read_write_self, hrb]
        · rename_i fix_data hfd
          split
          · refine ⟨by simp, fun _ => ?_⟩
            dsimp only
            rw [FS.read_write_ne _ _ (fun h => backup_ne _ h), hrb]
          · split
            · split
              · exact ⟨fun _ => hr1, by simp⟩
              · split
                · rename_i fs' hok
                  refine ⟨by simp, fun _ => ?_⟩
                  dsimp only
                  rw [(htouch _ _ _ _ hbp).1 fs' hok, hrb]
                · rename_i fsP herr
                  refine ⟨fun _ => ?_, by simp⟩
                  dsimp only
                  unfold restoreFrom
                  rw [FS.read_write_self, (htouch _ _ _ _ hbp).2 fsP herr, hrb]
            · split
              · split
                · rename_i hcfg
                  refine ⟨by simp, fun _ => ?_⟩
                  dsimp only
                  rw [_update_config_key_read_ne _ _ _ _ _
                    (fun h => backup_ne _ h), hrb]
                · rename_i hcfg
                  refine ⟨fun _ => ?_, by simp⟩
                  dsimp only
                  rw [Bool.not_eq_true] at hcfg
                  rw [_update_config_key_false hcfg, hr1]
              · exact ⟨fun _ => hr1, by simp⟩
      · split
        · split
          · exact ⟨fun _ => hr1, by simp⟩
          · split
            · rename_i fs' hok
              refine ⟨by simp, fun _ => ?_⟩
              dsimp only
              rw [(htouch _ _ _ _ hbp).1 fs' hok, hrb]
            · rename_i fsP herr
              refine ⟨fun _ => ?_, by simp⟩
              dsimp only
              unfold restoreFrom
              rw [FS.read_write_self, (htouch _ _ _ _ hbp).2 fsP herr, hrb]
        · split
          · refine ⟨by simp, fun _ => ?_⟩
            dsimp only
            rw [FS.read_write_ne _ _ (fun h => backup_ne _ h), hrb]
          · exact ⟨fun _ => hr1, by simp⟩

end DebugAgent
namespace DebugAgent

/-- A patch applier that never mutates anything (used to instantiate the
backup-guard theorem). -/
def extId : Ext where
  chunk := fun c => [c]
  analyze := fun _ _ => []
  parseDiff := fun s => if s.isEmpty then [] else [s]
  applyPatch := fun _ _ fs => .ok fs
  loadJson := fun _ => none

theorem C2_backup_guard_witness :
    (_apply_adaptive_learning_fix extId
        ⟨⟨[("tests/a.py".toList, "x = 1\n".toList)]⟩,
          [("boom".toList, "def fix(): pass".toList)], []⟩
        ⟨"a.py".toList, "t".toList, "boom".toList⟩).2.fs.read
      (adaptivePath ("a.py".toList) ++ ".backup".toList) =
    (⟨[("tests/a.py".toList, "x = 1\n".toList)]⟩ : FS).read
      (adaptivePath ("a.py".toList)) := by
  have htouch : ∀ ps patch fs q, q ∉ ps →
      (∀ fs', extId.applyPatch ps patch fs = .ok fs' → fs'.read q = fs.read q) ∧
      (∀ fs', extId.applyPatch ps patch fs = .error fs' → fs'.read q = fs.read q) := by
    intro ps patch fs q _
    constructor
    · intro fs' hok
      have : fs = fs' := by
        have h := hok
        unfold extId at h
        simpa using h
      rw [← this]
    · intro fs' herr
      unfold extId at herr
      simp at herr
  exact (C2_backup_guard extId
    ⟨⟨[("tests/a.py".toList, "x = 1\n".toList)]⟩,
      [("boom".toList, "def fix(): pass".toList)], []⟩
    ⟨"a.py".toList, "t".toList, "boom".toList⟩ htouch).2 (by decide)

/-- A patch applier that overwrites the target and then raises
(`Except.error` carries the file system as the raise left it). -/
def extBad : Ext where
  chunk := fun c => [c]
  analyze := fun _ _ => "nonempty".toList
  parseDiff := fun s => if s.isEmpty then [] else [s]
  applyPatch := fun _ _ fs => .error (fs.write ("tests/a.py".toList) "junk".toList)
  loadJson := fun _ => none

/-- C2 counterexample: the AI tier (`_apply_ollama_deepseek_fix`) performs
its file mutation with no backup guard.  With a patch application that
overwrites the target and then raises mid-apply, the tier reports failure,
yet the target's contents after the failed call differ from its contents
before the call (no restore), and no `<target>.backup` file exists. -/
theorem C2_cex :
    (_apply_ollama_deepseek_fix extBad
        ⟨⟨[("tests/a.py".toList, "orig\n".toList)]⟩, [], []⟩
        ⟨"a.py".toList, "t".toList, "SomeError: boom".toList⟩).1 = false ∧
    (_apply_ollama_deepseek_fix extBad
        ⟨⟨[("tests/a.py".toList, "orig\n".toList)]⟩, [], []⟩
        ⟨"a.py".toList, "t".toList, "SomeError: boom".toList⟩).2.fs.read
        ("tests/a.py".toList) = "junk".toList ∧
    (_apply_ollama_deepseek_fix extBad
        ⟨⟨[("tests/a.py".toList, "orig\n".toList)]⟩, [], []⟩
        ⟨"a.py".toList, "t".toList, "SomeError: boom".toList⟩).2.fs.existsF
        ("tests/a.py.backup".toList) = false := by
  refine ⟨?_, ?_, ?_⟩ <;> decide

end DebugAgent
namespace DebugAgent

theorem adaptive_trace (ext : Ext) (st : St) (f : Failure) :
    (_apply_adaptive_learning_fix ext st f).2.trace = st.trace := by
  rw [_apply_adaptive_learning_fix_eq]
  repeat' split
  all_goals rfl

theorem apply_fix_eq (ext : Ext) (st : St) (f : Failure) :
    apply_fix ext st f =
      if (_apply_known_pattern st.fs f).1 then
        (true, St.mk (_apply_known_pattern st.fs f).2 st.learning_db st.trace)
      else if (_apply_adaptive_learning_fix ext
          (St.mk (_apply_known_pattern st.fs f).2 st.learning_db st.trace) f).1 then
        (true, (_apply_adaptive_learning_fix ext
          (St.mk (_apply_known_pattern st.fs f).2 st.learning_db st.trace) f).2)
      else if (_apply_ollama_deepseek_fix ext
          (_apply_adaptive_learning_fix ext
            (St.mk (_apply_known_pattern st.fs f).2 st.learning_db st.trace) f).2
          f).1 then
        (true, _store_learned_fix
          (_apply_ollama_deepseek_fix ext
            (_apply_adaptive_learning_fix ext
              (St.mk (_apply_known_pattern st.fs f).2 st.learning_db st.trace)
              f).2 f).2
          f.error llmSentinel)
      else
        (false, (_apply_ollama_deepseek_fix ext
          (_apply_adaptive_learning_fix ext
            (St.mk (_apply_known_pattern st.fs f).2 st.learning_db st.trace) f).2
          f).2) := rfl

/-- C4: `apply_fix` tries the pattern tier, the learned tier and the AI tier
in strict priority order, short-circuiting on the first success (in
particular the AI backend leaves no trace event when an earlier tier
succeeds); within the pattern tier the error is classified by substring
presence in the fixed order `AttributeError`, `AssertionError`,
`ImportError`, `TypeError` (with `missing` and
`required positional argument`), `IndentationError`; the first matching
classification alone decides the tier's verdict — a failing matcher does
not fall through to another pattern class — and with no classification the
tier reports failure without touching the file system. -/
theorem C4_dispatch_priority (ext : Ext) (st : St) (f : Failure) :
    ((_apply_known_pattern st.fs f).1 = true →
      apply_fix ext st f =
        (true, St.mk (_apply_known_pattern st.fs f).2 st.learning_db st.trace)) ∧
    ((_apply_known_pattern st.fs f).1 = false →
      (_apply_adaptive_learning_fix ext
        (St.mk (_apply_known_pattern st.fs f).2 st.learning_db st.trace) f).1 =
          true →
      apply_fix ext st f =
        (true, (_apply_adaptive_learning_fix ext
          (St.mk (_apply_known_pattern st.fs f).2 st.learning_db st.trace) f).2) ∧
      (apply_fix ext st f).2.trace = st.trace) ∧
    (hasSub f.error ("AttributeError".toList) = true →
      _apply_known_pattern st.fs f =
        _quick_fix_missing_attribute st.fs f.file f.error) ∧
    (hasSub f.error ("AttributeError".toList) = false →
      hasSub f.error ("AssertionError".toList) = true →
      _apply_known_pattern st.fs f =
        _quick_fix_assertion_mismatch st.fs f.file f.error) ∧
    (hasSub f.error ("AttributeError".toList) = false →
      hasSub f.error ("AssertionError".toList) = false →
      hasSub f.error ("ImportError".toList) = true →
      _apply_known_pattern st.fs f =
        _quick_fix_import_error st.fs f.file f.error) ∧
    (hasSub f.error ("AttributeError".toList) = false →
      hasSub f.error ("AssertionError".toList) = false →
      hasSub f.error ("ImportError".toList) = false →
      (hasSub f.error ("TypeError".toList) && hasSub f.error ("missing".toList) &&
        hasSub f.error ("required positional argument".toList)) = true →
      _apply_known_pattern st.fs f =
        _quick_fix_type_error st.fs f.file f.error) ∧
    (hasSub f.error ("AttributeError".toList) = false →
      hasSub f.error ("AssertionError".toList) = false →
      hasSub f.error ("ImportError".toList) = false →
      (hasSub f.error ("TypeError".toList) && hasSub f.error ("missing".toList) &&
        hasSub f.error ("required positional argument".toList)) = false →
      hasSub f.error ("IndentationError".toList) = true →
      _apply_known_pattern st.fs f = _quick_fix_indentation st.fs f.file) ∧
    (hasSub f.error ("AttributeError".toList) = false →
      hasSub f.error ("AssertionError".toList) = false →
      hasSub f.error ("ImportError".toList) = false →
      (hasSub f.error ("TypeError".toList) && hasSub f.error ("missing".toList) &&
        hasSub f.error ("required positional argument".toList)) = false →
      hasSub f.error ("IndentationError".toList) = false →
      _apply_known_pattern st.fs f = (false, st.fs)) := by
  refine ⟨?_, ?_, ?_, ?_, ?_, ?_, ?_, ?_⟩
  · intro h
    rw [apply_fix_eq, if_pos h]
  · intro h1 h2
    have heq : apply_fix ext st f =
        (true, (_apply_adaptive_learning_fix ext
          (St.mk (_apply_known_pattern st.fs f).2 st.learning_db st.trace) f).2) := by
      rw [apply_fix_eq, if_neg (by rw [h1]; simp), if_pos h2]
    refine ⟨heq, ?_⟩
    rw [heq]
    exact adaptive_trace ext _ f
  · intro h1
    unfold _apply_known_pattern
    dsimp only
    rw [if_pos h1]
  · intro h1 h2
    unfold _apply_known_pattern
    dsimp only
    rw [if_neg (by rw [h1]; simp), if_pos h2]
  · intro h1 h2 h3
    unfold _apply_known_pattern
    dsimp only
    rw [if_neg (by rw [h1]; simp), if_neg (by rw [h2]; simp), if_pos h3]
  · intro h1 h2 h3 h4
    unfold _apply_known_pattern
    dsimp only
    rw [if_neg (by rw [h1]; simp), if_neg (by rw [h2]; simp),
      if_neg (by rw [h3]; simp), if_pos h4]
  · intro h1 h2 h3 h4 h5
    unfold _apply_known_pattern
    dsimp only
    rw [if_neg (by rw [h1]; simp), if_neg (by rw [h2]; simp),
      if_neg (by rw [h3]; simp), if_neg (by rw [h4]; simp), if_pos h5]
  · intro h1 h2 h3 h4 h5
    unfold _apply_known_pattern
    dsimp only
    rw [if_neg (by rw [h1]; simp), if_neg (by rw [h2]; simp),
      if_neg (by rw [h3]; simp), if_neg (by rw [h4]; simp),
      if_neg (by rw [h5]; simp)]

theorem C4_dispatch_priority_witness :
    _apply_known_pattern ⟨[("tests/a.py".toList, "x\ty\n".toList)]⟩
        ⟨"a.py".toList, "t".toList,
          "AttributeError and IndentationError: both markers".toList⟩ =
      _quick_fix_missing_attribute ⟨[("tests/a.py".toList, "x\ty\n".toList)]⟩
        "a.py".toList
        ("AttributeError and IndentationError: both markers".toList) ∧
    apply_fix extId ⟨⟨[("tests/a.py".toList, "x\ty\n".toList)]⟩, [], []⟩
        ⟨"a.py".toList, "t".toList, "IndentationError: tabs".toList⟩ =
      (true, St.mk
        (_apply_known_pattern ⟨[("tests/a.py".toList, "x\ty\n".toList)]⟩
          ⟨"a.py".toList, "t".toList, "IndentationError: tabs".toList⟩).2
        [] []) := by
  constructor
  · exact (C4_dispatch_priority extId
      ⟨⟨[("tests/a.py".toList, "x\ty\n".toList)]⟩, [], []⟩
      ⟨"a.py".toList, "t".toList,
        "AttributeError and IndentationError: both markers".toList⟩).2.2.1
      (by decide)
  · exact (C4_dispatch_priority extId
      ⟨⟨[("tests/a.py".toList, "x\ty\n".toList)]⟩, [], []⟩
      ⟨"a.py".toList, "t".toList, "IndentationError: tabs".toList⟩).1
      (by decide)

end DebugAgent
namespace DebugAgent

theorem ollama_trace_count (ext : Ext) (st : St) (f : Failure) :
    (_apply_ollama_deepseek_fix ext st f).2.trace.count Ev.runTests =
      st.trace.count Ev.runTests := by
  unfold _apply_ollama_deepseek_fix
  dsimp only
  split
  · rfl
  · split
    · simp [emit, List.count_append]
    · split
      · simp [emit, List.count_append]
      · simp [emit, List.count_append]

theorem store_trace (st : St) (k v : Str) :
    (_store_learned_fix st k v).trace = st.trace := rfl

theorem apply_fix_trace_count (ext : Ext) (st : St) (f : Failure) :
    (apply_fix ext st f).2.trace.count Ev.runTests =
      st.trace.count Ev.runTests := by
  rw [apply_fix_eq]
  split
  · rfl
  · split
    · rw [adaptive_trace]
    · have had := adaptive_trace ext
        (St.mk (_apply_known_pattern st.fs f).2 st.learning_db st.trace) f
      split
      · dsimp only
        rw [store_trace, ollama_trace_count, had]
      · dsimp only
        rw [ollama_trace_count, had]

theorem rollback_trace_count (st : St) (mods : List Str) :
    (rollback_changes st mods).trace.count Ev.runTests =
      st.trace.count Ev.runTests := by
  unfold rollback_changes
  split
  · rfl
  · simp [emit, List.count_append]

theorem fixLoop_trace_count (ext : Ext) :
    ∀ (failures : List Failure) (mods : List Str) (st : St),
      (fixLoop ext failures mods st).2.2.trace.count Ev.runTests =
        st.trace.count Ev.runTests := by
  intro failures
  induction failures with
  | nil => intro mods st; rfl
  | cons f rest ih =>
    intro mods st
    unfold fixLoop
    dsimp only
    split
    · rw [ih]
      exact apply_fix_trace_count ext st f
    · dsimp only
      rw [rollback_trace_count]
      exact apply_fix_trace_count ext st f

theorem retryAux_maxRetries_count (ext : Ext) (outs : Nat → Str) :
    ∀ (n attempt : Nat) (mods : List Str) (st : St),
      (retryAux ext outs attempt n mods st).1 = .maxRetriesReached →
      (retryAux ext outs attempt n mods st).2.trace.count Ev.runTests =
        st.trace.count Ev.runTests + n := by
  intro n
  induction n with
  | zero => intro attempt mods st _; rfl
  | succ k ih =>
    intro attempt mods st h
    unfold retryAux at h ⊢
    dsimp only at h ⊢
    split at h
    · exact absurd h (by simp)
    · rename_i hne
      rw [if_neg hne]
      rcases hfix : fixLoop ext (parse_test_failures (outs attempt)) mods
          (emit st Ev.runTests) with ⟨ofile, mods', st'⟩
      rw [hfix] at h
      rcases ofile with _ | file
      · dsimp only at h ⊢
        have hst' : st'.trace.count Ev.runTests =
            st.trace.count Ev.runTests + 1 := by
          have := fixLoop_trace_count ext
            (parse_test_failures (outs attempt)) mods (emit st Ev.runTests)
          rw [hfix] at this
          dsimp only at this
          rw [this]
          simp [emit, List.count_append]
        rw [ih (attempt + 1) mods' st' h, hst']
        omega
      · exact absurd h (by simp)

/-- C6 (amended): with `max_retries = 2` and the first attempt reporting a
single failure whose dispatch fails, `retry_tests` returns the terminal
failure "Could not fix ..." after exactly one test run — not "max retries
reached"; and whenever "max retries reached" is the outcome, exactly
`max_retries` test runs occurred. -/
theorem C6_retry_semantics (ext : Ext) (outs : Nat → Str) (st : St) :
    (∀ f : Failure, parse_test_failures (outs 1) = [f] →
      (apply_fix ext (emit st Ev.runTests) f).1 = false →
      retry_tests ext outs 2 st =
        (.couldNotFix f.file, (apply_fix ext (emit st Ev.runTests) f).2) ∧
      (apply_fix ext (emit st Ev.runTests) f).2.trace.count Ev.runTests =
        st.trace.count Ev.runTests + 1) ∧
    (∀ n : Nat, (retry_tests ext outs n st).1 = .maxRetriesReached →
      (retry_tests ext outs n st).2.trace.count Ev.runTests =
        st.trace.count Ev.runTests + n) := by
  constructor
  · intro f hparse hfail
    constructor
    · unfold retry_tests retryAux
      dsimp only
      rw [hparse]
      rw [if_neg (by simp)]
      unfold fixLoop
      dsimp only
      rw [if_neg (by rw [hfail]; simp)]
      unfold rollback_changes
      rw [if_pos (by simp)]
    · rw [apply_fix_trace_count]
      simp [emit, List.count_append]
  · intro n
    exact retryAux_maxRetries_count ext outs n 1 [] st

end DebugAgent
namespace DebugAgent

/-- External collaborators whose LLM always proposes a valid, applicable
patch: the suggestion parses to a nonempty patch set and applying it
overwrites the listed file. -/
def extOk : Ext where
  chunk := fun c => [c]
  analyze := fun _ _ => "diff --git a b".toList
  parseDiff := fun s => if s.isEmpty then [] else [s]
  applyPatch := fun ps _ fs =>
    match ps with
    | [p] => .ok (fs.write p ("patched".toList))
    | _ => .ok fs
  loadJson := fun _ => none

/-- The C1 scenario's initial state: one target file, empty learning DB. -/
def stC1 : St := ⟨⟨[("tests/a.py".toList, "q\n".toList)]⟩, [], []⟩

/-- The C1 scenario's failure record (an error no pattern tier matches). -/
def fC1 : Failure := ⟨"a.py".toList, "t".toList, "SomeError: boom".toList⟩

/-- C1: after a successful AI-tier fix, the full untruncated error text is
stored in the learning DB and the DB file is rewritten immediately — but on
the next dispatch of the very same failure the learned tier rejects the
stored sentinel `"LLM-based patch (not real code)"` as an unrecognized fix
format and returns failure, so the dispatcher invokes the AI backend a
second time (two `aiQuery` events), contradicting the claim (and
`_store_learned_fix`'s own docstring) that the learned fix lets the system
skip the LLM step. -/
theorem C1_ai_reinvoked :
    (apply_fix extOk stC1 fC1).1 = true ∧
    (apply_fix extOk stC1 fC1).2.learning_db = [(fC1.error, llmSentinel)] ∧
    (apply_fix extOk stC1 fC1).2.fs.read LEARNING_DB_PATH =
      jsonDump [(fC1.error, llmSentinel)] ∧
    (_apply_adaptive_learning_fix extOk (apply_fix extOk stC1 fC1).2 fC1).1 =
      false ∧
    (apply_fix extOk (apply_fix extOk stC1 fC1).2 fC1).2.trace =
      [Ev.aiQuery, Ev.aiQuery] := by
  refine ⟨?_, ?_, ?_, ?_, ?_⟩ <;> decide

/-- The C3 scenario's test output: two failures in the same file, both
fixable by the indentation pattern. -/
def outsC3 : Nat → Str := fun _ =>
  "FAILED a.py::t1 - IndentationError: x\nFAILED a.py::t2 - IndentationError: y".toList

/-- The C3 scenario's initial state: the shared target file exists and
contains a tab. -/
def stC3 : St := ⟨⟨[("tests/a.py".toList, "x\ty\n".toList)]⟩, [], []⟩

/-- C3: in a pass over two failures in the same file, both dispatches return
`true`, yet the orchestrator rolls the cycle back and returns the terminal
"Could not fix" failure — because the inner loop's condition
`fix_ok and file_name not in modified_files` routes a successful dispatch
for an already-modified file into the rollback branch.  This contradicts
the claim that a successful dispatch never triggers rollback and that
rollback happens exactly when some dispatch returns false. -/
theorem C3_successful_dispatch_triggers_rollback :
    parse_test_failures (outsC3 1) =
      [⟨"a.py".toList, "t1".toList, "IndentationError: x".toList⟩,
        ⟨"a.py".toList, "t2".toList, "IndentationError: y".toList⟩] ∧
    (apply_fix extOk (emit stC3 Ev.runTests)
      ⟨"a.py".toList, "t1".toList, "IndentationError: x".toList⟩).1 = true ∧
    (apply_fix extOk
      (apply_fix extOk (emit stC3 Ev.runTests)
        ⟨"a.py".toList, "t1".toList, "IndentationError: x".toList⟩).2
      ⟨"a.py".toList, "t2".toList, "IndentationError: y".toList⟩).1 = true ∧
    (retry_tests extOk outsC3 3 stC3).1 = .couldNotFix ("a.py".toList) ∧
    (retry_tests extOk outsC3 3 stC3).2.trace = [Ev.runTests, Ev.rollback] := by
  refine ⟨?_, ?_, ?_, ?_, ?_⟩ <;> decide

/-- The C6 scenario's test output: the same single unfixable failure on
every attempt (no pattern matches and the file does not exist). -/
def outsC6 : Nat → Str := fun _ => "FAILED x.py::t - SomeError: boom".toList

/-- The C6 scenario's failure record. -/
def fC6 : Failure := ⟨"x.py".toList, "t".toList, "SomeError: boom".toList⟩

/-- C6 counterexample: with `max_retries = 2` and every attempt reporting
the same single unfixable failure, the orchestrator does **not** return
"max retries reached" after two test runs — it returns the "Could not fix"
terminal failure after exactly one test run, because the first dispatch
failure aborts the cycle immediately. -/
theorem C6_cex :
    (retry_tests extOk outsC6 2 ⟨⟨[]⟩, [], []⟩).1 =
      .couldNotFix ("x.py".toList) ∧
    (retry_tests extOk outsC6 2 ⟨⟨[]⟩, [], []⟩).1 ≠ .maxRetriesReached ∧
    (retry_tests extOk outsC6 2 ⟨⟨[]⟩, [], []⟩).2.trace.count Ev.runTests = 1 := by
  refine ⟨?_, ?_, ?_⟩ <;> decide

theorem C6_retry_semantics_witness :
    retry_tests extOk outsC6 2 ⟨⟨[]⟩, [], []⟩ =
      (.couldNotFix ("x.py".toList),
        (apply_fix extOk (emit ⟨⟨[]⟩, [], []⟩ Ev.runTests) fC6).2) ∧
    (retry_tests extOk outsC6 0 ⟨⟨[]⟩, [], []⟩).2.trace.count Ev.runTests = 0 := by
  constructor
  · exact ((C6_retry_semantics extOk outsC6 ⟨⟨[]⟩, [], []⟩).1 fC6
      (by decide) (by decide)).1
  · exact (C6_retry_semantics extOk outsC6 ⟨⟨[]⟩, [], []⟩).2 0 (by decide)

end DebugAgent
namespace DebugAgent

/-!
## Round trip of the learning-DB JSON codec
-/

theorem parseStrBody_quote (fuel : Nat) (cs : Str) :
    parseStrBody (fuel + 1) ('"' :: cs) = some ([], cs) := rfl

theorem parseStrBody_escape (fuel : Nat) (e d : Char) (cs : Str)
    (hd : unescChar e = some d) :
    parseStrBody (fuel + 1) ('\\' :: e :: cs) =
      (parseStrBody fuel cs).map (fun p => (d :: p.1, p.2)) := by
  have h : parseStrBody (fuel + 1) ('\\' :: e :: cs) =
      (match unescChar e with
       | none => none
       | some d => (parseStrBody fuel cs).map (fun p => (d :: p.1, p.2))) := rfl
  rw [h, hd]

theorem parseStrBody_plain (fuel : Nat) (c : Char) (cs : Str)
    (h1 : c ≠ '"') (h2 : c ≠ '\\') :
    parseStrBody (fuel + 1) (c :: cs) =
      (parseStrBody fuel cs).map (fun p => (c :: p.1, p.2)) := by
  conv_lhs => rw [parseStrBody.eq_def]
  dsimp only
  rw [if_neg h1, if_neg h2]

theorem parseStrBody_esc :
    ∀ (s : Str) (rest : Str) (fuel : Nat),
      (escStr s).length + 1 ≤ fuel →
      parseStrBody fuel (escStr s ++ '"' :: rest) = some (s, rest) := by
  intro s
  induction s with
  | nil =>
    intro rest fuel hf
    obtain ⟨m, rfl⟩ : ∃ m, fuel = m + 1 := ⟨fuel - 1, by omega⟩
    exact parseStrBody_quote m rest
  | cons c cs ih =>
    intro rest fuel hf
    by_cases h1 : c = '"'
    · subst h1
      have he : escStr ('"' :: cs) = '\\' :: '"' :: escStr cs := rfl
      rw [he] at hf ⊢
      simp only [List.length_cons, List.cons_append] at hf ⊢
      obtain ⟨m, rfl⟩ : ∃ m, fuel = m + 1 := ⟨fuel - 1, by omega⟩
      rw [parseStrBody_escape m '"' '"' _ (by decide), ih rest m (by omega)]
      rfl
    · by_cases h2 : c = '\\'
      · subst h2
        have he : escStr ('\\' :: cs) = '\\' :: '\\' :: escStr cs := rfl
        rw [he] at hf ⊢
        simp only [List.length_cons, List.cons_append] at hf ⊢
        obtain ⟨m, rfl⟩ : ∃ m, fuel = m + 1 := ⟨fuel - 1, by omega⟩
        rw [parseStrBody_escape m '\\' '\\' _ (by decide), ih rest m (by omega)]
        rfl
      · by_cases h3 : c = '\n'
        · subst h3
          have he : escStr ('\n' :: cs) = '\\' :: 'n' :: escStr cs := rfl
          rw [he] at hf ⊢
          simp only [List.length_cons, List.cons_append] at hf ⊢
          obtain ⟨m, rfl⟩ : ∃ m, fuel = m + 1 := ⟨fuel - 1, by omega⟩
          rw [parseStrBody_escape m 'n' '\n' _ (by decide), ih rest m (by omega)]
          rfl
        · by_cases h4 : c = '\t'
          · subst h4
            have he : escStr ('\t' :: cs) = '\\' :: 't' :: escStr cs := rfl
            rw [he] at hf ⊢
            simp only [List.length_cons, List.cons_append] at hf ⊢
            obtain ⟨m, rfl⟩ : ∃ m, fuel = m + 1 := ⟨fuel - 1, by omega⟩
            rw [parseStrBody_escape m 't' '\t' _ (by decide),
              ih rest m (by omega)]
            rfl
          · by_cases h5 : c = '\r'
            · subst h5
              have he : escStr ('\r' :: cs) = '\\' :: 'r' :: escStr cs := rfl
              rw [he] at hf ⊢
              simp only [List.length_cons, List.cons_append] at hf ⊢
              obtain ⟨m, rfl⟩ : ∃ m, fuel = m + 1 := ⟨fuel - 1, by omega⟩
              rw [parseStrBody_escape m 'r' '\r' _ (by decide),
                ih rest m (by omega)]
              rfl
            · have he : escStr (c :: cs) = c :: escStr cs := by
                simp [escStr, escChar, h1, h2, h3, h4, h5]
              rw [he] at hf ⊢
              simp only [List.length_cons, List.cons_append] at hf ⊢
              obtain ⟨m, rfl⟩ : ∃ m, fuel = m + 1 := ⟨fuel - 1, by omega⟩
              rw [parseStrBody_plain m c _ h1 h2, ih rest m (by omega)]
              rfl

end DebugAgent
namespace DebugAgent

theorem skipWs_cons_ws {c : Char} (x : Str)
    (h : (c = ' ' || c = '\n' || c = '\t' || c = '\r') = true) :
    skipWs (c :: x) = skipWs x := by
  unfold skipWs
  rw [List.dropWhile_cons_of_pos (by simpa using h)]

theorem skipWs_cons_not_ws {c : Char} (x : Str)
    (h : (c = ' ' || c = '\n' || c = '\t' || c = '\r') = false) :
    skipWs (c :: x) = c :: x := by
  unfold skipWs
  rw [List.dropWhile_cons_of_neg (by simpa using h)]

theorem skipWs_idem (cs : Str) : skipWs (skipWs cs) = skipWs cs := by
  induction cs with
  | nil => rfl
  | cons c x ih =>
    cases h : (c = ' ' || c = '\n' || c = '\t' || c = '\r') with
    | true => rw [skipWs_cons_ws x h]; exact ih
    | false => rw [skipWs_cons_not_ws x h, skipWs_cons_not_ws x h]

theorem parseEntriesF_skipWs (fuel : Nat) (cs : Str) :
    parseEntriesF fuel (skipWs cs) = parseEntriesF fuel cs := by
  cases fuel with
  | zero => rfl
  | succ m =>
    conv_lhs => rw [parseEntriesF.eq_def]
    conv_rhs => rw [parseEntriesF.eq_def]
    dsimp only
    rw [skipWs_idem]

/-- The text of `dumpEntry` split at its structural markers. -/
theorem dumpEntry_shape (k v : Str) (tail : Str) :
    dumpEntry (k, v) ++ tail =
      ' ' :: ' ' :: ' ' :: ' ' :: '"' ::
        (escStr k ++ '"' :: (':' :: ' ' :: '"' :: (escStr v ++ '"' :: tail))) := by
  unfold dumpEntry
  simp

theorem parseEntriesF_entry (m : Nat) (k v : Str) (tail : Str) :
    parseEntriesF (m + 1) (dumpEntry (k, v) ++ tail) =
      (match skipWs tail with
       | [] => none
       | c :: rest8 =>
         if c = ',' then
           (parseEntriesF m rest8).map (fun p => ((k, v) :: p.1, p.2))
         else if c = rbrace then some ([(k, v)], rest8)
         else none) := by
  rw [dumpEntry_shape]
  conv_lhs => rw [parseEntriesF.eq_def]
  dsimp only
  rw [skipWs_cons_ws _ (by decide), skipWs_cons_ws _ (by decide),
    skipWs_cons_ws _ (by decide), skipWs_cons_ws _ (by decide),
    skipWs_cons_not_ws _ (by decide)]
  dsimp only
  rw [if_pos rfl, parseStrBody_esc k _ _ (by simp)]
  dsimp only
  rw [skipWs_cons_not_ws _ (by decide)]
  dsimp only
  rw [if_pos rfl, skipWs_cons_ws _ (by decide),
    skipWs_cons_not_ws _ (by decide)]
  dsimp only
  rw [if_pos rfl, parseStrBody_esc v _ _ (by simp)]

end DebugAgent
namespace DebugAgent

theorem parseEntriesF_newline (m : Nat) (x : Str) :
    parseEntriesF m ('\n' :: x) = parseEntriesF m x := by
  rw [← parseEntriesF_skipWs m ('\n' :: x), skipWs_cons_ws _ (by decide),
    parseEntriesF_skipWs]

theorem parseEntriesF_dump :
    ∀ (db : List (Str × Str)) (fuel : Nat), db ≠ [] → db.length ≤ fuel →
      parseEntriesF fuel (dumpEntries db ++ '\n' :: [rbrace]) = some (db, []) := by
  intro db
  induction db with
  | nil => intro fuel h _; exact absurd rfl h
  | cons kv rest ih =>
    intro fuel _ hf
    have hf1 : 1 ≤ fuel := le_trans (by simp) hf
    obtain ⟨m, rfl⟩ : ∃ m, fuel = m + 1 := ⟨fuel - 1, by omega⟩
    rcases kv with ⟨k, v⟩
    cases rest with
    | nil =>
      rw [show dumpEntries [(k, v)] = dumpEntry (k, v) from rfl,
        parseEntriesF_entry, skipWs_cons_ws _ (by decide),
        skipWs_cons_not_ws _ (by decide)]
      dsimp only
      rw [if_neg (by decide), if_pos rfl]
    | cons kv2 rest2 =>
      rw [show dumpEntries ((k, v) :: kv2 :: rest2) ++ '\n' :: [rbrace] =
          dumpEntry (k, v) ++
            (',' :: '\n' :: (dumpEntries (kv2 :: rest2) ++ '\n' :: [rbrace])) by
        rw [show dumpEntries ((k, v) :: kv2 :: rest2) =
          dumpEntry (k, v) ++ ',' :: '\n' :: dumpEntries (kv2 :: rest2) from rfl]
        simp]
      rw [parseEntriesF_entry, skipWs_cons_not_ws _ (by decide)]
      dsimp only
      rw [if_pos rfl, parseEntriesF_newline,
        ih m (by simp) (by simp only [List.length_cons] at hf ⊢; omega)]
      rfl

theorem dumpEntry_length_pos (kv : Str × Str) : 1 ≤ (dumpEntry kv).length := by
  rcases kv with ⟨k, v⟩
  unfold dumpEntry
  simp

theorem dumpEntries_length_ge :
    ∀ db : List (Str × Str), db.length ≤ (dumpEntries db).length := by
  intro db
  induction db with
  | nil => simp [dumpEntries]
  | cons kv rest ih =>
    cases rest with
    | nil =>
      have := dumpEntry_length_pos kv
      simp only [dumpEntries, List.length_cons, List.length_nil]
      omega
    | cons kv2 rest2 =>
      have h1 := dumpEntry_length_pos kv
      rw [show dumpEntries (kv :: kv2 :: rest2) =
        dumpEntry kv ++ ',' :: '\n' :: dumpEntries (kv2 :: rest2) from rfl]
      simp only [List.length_append, List.length_cons] at *
      omega

theorem skipWs_dumpEntries (k v : Str) (rest : List (Str × Str)) (tail : Str) :
    ∃ Y : Str, skipWs (dumpEntries ((k, v) :: rest) ++ tail) = '"' :: Y := by
  cases rest with
  | nil =>
    rw [show dumpEntries [(k, v)] = dumpEntry (k, v) from rfl,
      dumpEntry_shape, skipWs_cons_ws _ (by decide), skipWs_cons_ws _ (by decide),
      skipWs_cons_ws _ (by decide), skipWs_cons_ws _ (by decide),
      skipWs_cons_not_ws _ (by decide)]
    exact ⟨_, rfl⟩
  | cons kv2 rest2 =>
    rw [show dumpEntries ((k, v) :: kv2 :: rest2) ++ tail =
        dumpEntry (k, v) ++
          (',' :: '\n' :: (dumpEntries (kv2 :: rest2) ++ tail)) by
      rw [show dumpEntries ((k, v) :: kv2 :: rest2) =
        dumpEntry (k, v) ++ ',' :: '\n' :: dumpEntries (kv2 :: rest2) from rfl]
      simp]
    rw [dumpEntry_shape, skipWs_cons_ws _ (by decide), skipWs_cons_ws _ (by decide),
      skipWs_cons_ws _ (by decide), skipWs_cons_ws _ (by decide),
      skipWs_cons_not_ws _ (by decide)]
    exact ⟨_, rfl⟩

theorem jsonParse_jsonDump (db : List (Str × Str)) :
    jsonParse (jsonDump db) = some db := by
  cases db with
  | nil => decide
  | cons kv rest =>
    rcases kv with ⟨k, v⟩
    obtain ⟨Y, hY⟩ := skipWs_dumpEntries k v rest ('\n' :: [rbrace])
    have hfuel : ((k, v) :: rest).length ≤ (jsonDump ((k, v) :: rest)).length := by
      have := dumpEntries_length_ge ((k, v) :: rest)
      rw [show jsonDump ((k, v) :: rest) =
        lbrace :: '\n' :: (dumpEntries ((k, v) :: rest) ++ '\n' :: [rbrace])
        from rfl]
      simp only [List.length_cons, List.length_append] at *
      omega
    unfold jsonParse
    rw [show jsonDump ((k, v) :: rest) =
      lbrace :: '\n' :: (dumpEntries ((k, v) :: rest) ++ '\n' :: [rbrace])
      from rfl]
    rw [skipWs_cons_not_ws _ (by decide)]
    dsimp only
    rw [if_pos rfl, skipWs_cons_ws _ (by decide), hY]
    dsimp only
    rw [if_neg (by decide)]
    have hpe : parseEntriesF
        (lbrace :: '\n' ::
          (dumpEntries ((k, v) :: rest) ++ '\n' :: [rbrace])).length
        ('"' :: Y) = some ((k, v) :: rest, []) := by
      rw [← hY, parseEntriesF_skipWs]
      apply parseEntriesF_dump _ _ (by simp)
      calc ((k, v) :: rest).length
          ≤ (jsonDump ((k, v) :: rest)).length := hfuel
        _ = (lbrace :: '\n' ::
            (dumpEntries ((k, v) :: rest) ++ '\n' :: [rbrace])).length := rfl
    rw [hpe]
    rfl

/-- C7: saving the learning DB and loading it back reproduces the same
key-to-value mapping with the same insertion order, and loading with no
backing file yields the empty store rather than an error.  The `jsonSafe`
hypothesis restricts the statement to strings on which the embedded codec
agrees with the stdlib `json.dump(..., indent=4)` / `json.load` pair
(printable ASCII plus newline, tab, carriage return). -/
theorem C7_roundtrip (st : St)
    (hsafe : ∀ kv ∈ st.learning_db,
      (∀ c ∈ kv.1, jsonSafe c) ∧ (∀ c ∈ kv.2, jsonSafe c)) :
    _load_learning_db (_save_learning_db st).fs = st.learning_db ∧
    (∀ fs : FS, fs.existsF LEARNING_DB_PATH = false →
      _load_learning_db fs = []) := by
  constructor
  · unfold _load_learning_db _save_learning_db
    dsimp only
    rw [if_neg (by rw [FS.existsF_write_self]; simp),
      FS.read_write_self, jsonParse_jsonDump]
    rfl
  · intro fs h
    unfold _load_learning_db
    rw [if_pos h]

theorem C7_roundtrip_witness :
    _load_learning_db (_save_learning_db
      ⟨⟨[]⟩, [("a b".toList, "c\nd".toList), ("e".toList, "f \"g\"".toList)],
        []⟩).fs =
      [("a b".toList, "c\nd".toList), ("e".toList, "f \"g\"".toList)] ∧
    _load_learning_db ⟨[("other.txt".toList, "x".toList)]⟩ = [] := by
  constructor
  · exact (C7_roundtrip
      ⟨⟨[]⟩, [("a b".toList, "c\nd".toList), ("e".toList, "f \"g\"".toList)], []⟩
      (by decide)).1
  · exact (C7_roundtrip ⟨⟨[]⟩, [], []⟩ (by decide)).2
      ⟨[("other.txt".toList, "x".toList)]⟩ (by decide)

end DebugAgent
namespace DebugAgent

/-!
## The failure parser over multi-line output (C5)

A match of the failure pattern never crosses a newline (every group is
newline-free and the greedy last group stops at the line end), so `finditer`
over a newline-joined list of lines is the concatenation of the per-line
scans, and a newline-free line carries at most one match.
-/

theorem isPrefixOf_append_newline {sep : Str} (u v : Str) (hsep : '\n' ∉ sep) :
    sep.isPrefixOf (u ++ '\n' :: v) = sep.isPrefixOf u := by
  induction sep generalizing u with
  | nil => simp [List.isPrefixOf]
  | cons s ss ih =>
    cases u with
    | nil =>
      simp only [List.nil_append, List.isPrefixOf]
      have hs : (s == '\n') = false := by
        simp only [List.mem_cons, not_or] at hsep
        simp only [beq_eq_false_iff_ne, ne_eq]
        exact fun h => hsep.1 h.symm
      rw [hs]
      simp [List.isPrefixOf]
    | cons a u' =>
      simp only [List.cons_append, List.isPrefixOf, List.append_eq]
      rw [ih u' (fun h => hsep (List.mem_cons_of_mem _ h))]

theorem takeWhile_ne_newline_of_not_mem {r : Str} (h : '\n' ∉ r) :
    r.takeWhile (fun c => c ≠ '\n') = r := by
  induction r with
  | nil => rfl
  | cons c cs ih =>
    simp only [List.mem_cons, not_or] at h
    rw [List.takeWhile_cons_of_pos (by simpa using Ne.symm h.1)]
    rw [ih h.2]

theorem takeWhile_ne_newline_append {r : Str} (v : Str) (h : '\n' ∉ r) :
    (r ++ '\n' :: v).takeWhile (fun c => c ≠ '\n') = r := by
  induction r with
  | nil => simp
  | cons c cs ih =>
    simp only [List.mem_cons, not_or] at h
    simp only [List.cons_append]
    rw [List.takeWhile_cons_of_pos (by simpa using Ne.symm h.1)]
    rw [ih h.2]

theorem mem_lazySplits_suffix {sep cs : Str} {g r : Str}
    (h : (g, r) ∈ lazySplits sep cs) : r <:+ cs := by
  unfold lazySplits at h
  rcases List.mem_filterMap.1 h with ⟨i, _, hsome⟩
  split at hsome
  · rw [Option.some.injEq, Prod.mk.injEq] at hsome
    obtain ⟨-, hr⟩ := hsome
    subst hr
    exact (List.drop_suffix _ _).trans (List.drop_suffix _ _)
  · exact absurd hsome (by simp)

theorem lazySplits_append_newline {sep : Str} (u v : Str) (hsep : '\n' ∉ sep) :
    lazySplits sep (u ++ '\n' :: v) =
      (lazySplits sep u).map (fun p => (p.1, p.2 ++ '\n' :: v)) := by
  unfold lazySplits
  have hlen : (u ++ '\n' :: v).length = u.length + (1 + v.length) := by
    simp; omega
  rw [hlen, List.range_add, List.filterMap_append, List.map_filterMap]
  have h2 : List.filterMap (fun i =>
      if sep.isPrefixOf ((u ++ '\n' :: v).drop (i + 1)) &&
          !(((u ++ '\n' :: v).take (i + 1)).contains '\n')
      then some ((u ++ '\n' :: v).take (i + 1),
        (((u ++ '\n' :: v).drop (i + 1)).drop sep.length))
      else none)
      ((List.range (1 + v.length)).map (u.length + ·)) = [] := by
    rw [List.filterMap_eq_nil_iff]
    intro i hi
    rcases List.mem_map.1 hi with ⟨j, _, rfl⟩
    have htake : (u ++ '\n' :: v).take (u.length + j + 1) =
        u ++ '\n' :: v.take j := by
      rw [show u.length + j + 1 = u.length + (j + 1) by omega, List.take_append]
      rfl
    have hmem : ((u ++ '\n' :: v).take (u.length + j + 1)).contains '\n' = true := by
      rw [htake]
      exact List.elem_eq_true_of_mem (by simp)
    rw [if_neg (by rw [hmem]; simp)]
  rw [h2, List.append_nil]
  apply List.filterMap_congr
  intro i hi
  have hilt : i < u.length := List.mem_range.1 hi
  have hi1 : i + 1 ≤ u.length := hilt
  have htake : (u ++ '\n' :: v).take (i + 1) = u.take (i + 1) :=
    List.take_append_of_le_length hi1
  have hdrop : (u ++ '\n' :: v).drop (i + 1) = u.drop (i + 1) ++ '\n' :: v :=
    List.drop_append_of_le_length hi1
  rw [htake, hdrop, isPrefixOf_append_newline _ _ hsep]
  by_cases hc : sep.isPrefixOf (u.drop (i + 1)) && !((u.take (i + 1)).contains '\n')
  · rw [if_pos hc, if_pos hc]
    have hseplen : sep.length ≤ (u.drop (i + 1)).length := by
      rw [Bool.and_eq_true] at hc
      exact listPrefixLengthLe (listIsPrefixOfIff.1 hc.1)
    rw [Option.map_some', List.drop_append_of_le_length hseplen]
  · rw [if_neg hc, if_neg hc]
    rfl

theorem findSome?_map_pointwise {α β γ δ : Type} (l : List α) (g : α → β)
    (f' : β → Option δ) (f : α → Option γ) (h : γ → δ)
    (hpt : ∀ a ∈ l, f' (g a) = (f a).map h) :
    (l.map g).findSome? f' = (l.findSome? f).map h := by
  induction l with
  | nil => rfl
  | cons a as ih =>
    rw [List.map_cons, List.findSome?_cons, List.findSome?_cons,
      hpt a (by simp)]
    cases hfa : f a with
    | some b => rfl
    | none =>
      simp only [Option.map_none']
      exact ih (fun x hx => hpt x (by simp [hx]))

end DebugAgent
namespace DebugAgent

theorem matchTail_append_newline (u v : Str) (hu : '\n' ∉ u) :
    matchTail (u ++ '\n' :: v) =
      (matchTail u).map (fun t => (t.1, t.2.1, t.2.2.1, t.2.2.2 ++ '\n' :: v)) := by
  unfold matchTail
  rw [lazySplits_append_newline u v (by decide)]
  apply findSome?_map_pointwise
  intro p hp
  have hp2 : '\n' ∉ p.2 := fun hmem => hu ((mem_lazySplits_suffix hp).subset hmem)
  dsimp only
  rw [lazySplits_append_newline p.2 v (by decide)]
  apply findSome?_map_pointwise
  intro q hq
  have hq2 : '\n' ∉ q.2 := fun hmem => hp2 ((mem_lazySplits_suffix hq).subset hmem)
  dsimp only
  rw [takeWhile_ne_newline_append v hq2, takeWhile_ne_newline_of_not_mem hq2]
  by_cases he : q.2.isEmpty
  · rw [if_pos he, if_pos he]
    rfl
  · rw [if_neg he, if_neg he, Option.map_some', List.drop_left, List.drop_length]
    rfl

theorem matchFull_append_newline (u v : Str) (hu : '\n' ∉ u) :
    matchFull (u ++ '\n' :: v) =
      (matchFull u).map (fun t => (t.1, t.2 ++ '\n' :: v)) := by
  unfold matchFull
  rw [isPrefixOf_append_newline u v (by decide)]
  by_cases hp : "FAILED ".toList.isPrefixOf u
  · rw [if_pos hp, if_pos hp]
    have h7 : 7 ≤ u.length := by
      have := listPrefixLengthLe (listIsPrefixOfIff.1 hp)
      simpa using this
    rw [List.drop_append_of_le_length h7,
      matchTail_append_newline _ v (fun h => hu (List.drop_subset _ _ h))]
    cases matchTail (u.drop 7) with
    | none => rfl
    | some t =>
      rcases t with ⟨g1, g2, g3, rest⟩
      rfl
  · rw [if_neg hp, if_neg hp]
    rfl

theorem matchTail_rest_nil {cs : Str} (hcs : '\n' ∉ cs) {g1 g2 g3 rest : Str}
    (h : matchTail cs = some (g1, g2, g3, rest)) : rest = [] := by
  unfold matchTail at h
  rcases List.exists_of_findSome?_eq_some h with ⟨p, hp, hpeq⟩
  rcases List.exists_of_findSome?_eq_some hpeq with ⟨q, hq, hqeq⟩
  have hp2 : '\n' ∉ p.2 := fun hmem => hcs ((mem_lazySplits_suffix hp).subset hmem)
  have hq2 : '\n' ∉ q.2 := fun hmem => hp2 ((mem_lazySplits_suffix hq).subset hmem)
  rw [takeWhile_ne_newline_of_not_mem hq2] at hqeq
  split at hqeq
  · exact absurd hqeq (by simp)
  · rw [Option.some.injEq, Prod.mk.injEq, Prod.mk.injEq, Prod.mk.injEq] at hqeq
    obtain ⟨-, -, -, hrest⟩ := hqeq
    rw [← hrest, List.drop_length]

theorem matchFull_rest_nil {cs : Str} (hcs : '\n' ∉ cs) {f : Failure} {rest : Str}
    (h : matchFull cs = some (f, rest)) : rest = [] := by
  unfold matchFull at h
  split at h
  · split at h
    · rename_i g1 g2 g3 r htt
      rw [Option.some.injEq, Prod.mk.injEq] at h
      obtain ⟨-, hrest⟩ := h
      subst hrest
      exact matchTail_rest_nil (fun hm => hcs (List.drop_subset _ _ hm)) htt
    · exact absurd h (by simp)
  · exact absurd h (by simp)

theorem matchFull_newline_cons (v : Str) : matchFull ('\n' :: v) = none := by
  unfold matchFull
  have h : "FAILED ".toList.isPrefixOf ('\n' :: v) = false := by
    rw [show ("FAILED ".toList : Str) = 'F' :: "AILED ".toList from rfl]
    simp only [List.isPrefixOf]
    rw [show ('F' == '\n') = false from by decide]
    simp
  rw [if_neg (by rw [h]; simp)]

theorem finditer_newline_cons (v : Str) : finditer ('\n' :: v) = finditer v :=
  finditer_cons_nomatch (matchFull_newline_cons v)

theorem finditer_append_newline : ∀ (u v : Str), '\n' ∉ u →
    finditer (u ++ '\n' :: v) = finditer u ++ finditer v := by
  intro u
  induction u with
  | nil =>
    intro v _
    rw [List.nil_append, finditer_newline_cons, finditer_nil, List.nil_append]
  | cons c u' ih =>
    intro v hu
    have hu' : '\n' ∉ u' := fun h => hu (List.mem_cons_of_mem _ h)
    rcases hm : matchFull (c :: u') with _ | ⟨f, rest⟩
    · have hj := matchFull_append_newline (c :: u') v hu
      rw [hm, Option.map_none'] at hj
      rw [show (c :: u') ++ '\n' :: v = c :: (u' ++ '\n' :: v) from rfl] at hj ⊢
      rw [finditer_cons_nomatch hj, finditer_cons_nomatch hm, ih v hu']
    · have hrest : rest = [] := matchFull_rest_nil hu hm
      subst hrest
      have hj := matchFull_append_newline (c :: u') v hu
      rw [hm, Option.map_some'] at hj
      simp only [List.nil_append] at hj
      rw [show (c :: u') ++ '\n' :: v = c :: (u' ++ '\n' :: v) from rfl] at hj ⊢
      rw [finditer_cons_match hj, finditer_newline_cons,
        finditer_cons_match hm, finditer_nil]
      rfl

theorem finditer_length_le_one : ∀ (u : Str), '\n' ∉ u →
    (finditer u).length ≤ 1 := by
  intro u
  induction u with
  | nil => intro _; rw [finditer_nil]; simp
  | cons c u' ih =>
    intro hu
    have hu' : '\n' ∉ u' := fun h => hu (List.mem_cons_of_mem _ h)
    rcases hm : matchFull (c :: u') with _ | ⟨f, rest⟩
    · rw [finditer_cons_nomatch hm]
      exact ih hu'
    · have hrest : rest = [] := matchFull_rest_nil hu hm
      subst hrest
      rw [finditer_cons_match hm, finditer_nil]
      simp

/-- Join a list of lines with single newlines (the shape of a test-runner
output decomposed into its lines). -/
def joinLines : List Str → Str
  | [] => []
  | [l] => l
  | l :: ls => l ++ '\n' :: joinLines ls

theorem flatten_finditer_length (ls : List Str) (h : ∀ l ∈ ls, '\n' ∉ l) :
    ((ls.map finditer).flatten).length =
      (ls.filter (fun l => !(finditer l).isEmpty)).length := by
  induction ls with
  | nil => rfl
  | cons l rest ih =>
    have hle := finditer_length_le_one l (h l (by simp))
    have hrec := ih (fun x hx => h x (by simp [hx]))
    by_cases he : (finditer l).isEmpty
    · have hlen : (finditer l).length = 0 := by
        rw [List.isEmpty_iff] at he
        simp [he]
      simp only [List.map_cons, List.flatten_cons, List.length_append, hlen,
        List.filter_cons, he]
      simpa using hrec
    · have hlen : (finditer l).length = 1 := by
        have : 1 ≤ (finditer l).length := by
          rcases hf : finditer l with _ | ⟨a, b⟩
          · rw [hf] at he; simp at he
          · simp
        omega
      have he' : (!(finditer l).isEmpty) = true := by
        rw [Bool.not_eq_true']
        exact Bool.not_eq_true _ ▸ (by simpa using he)
      simp only [List.map_cons, List.flatten_cons, List.length_append, hlen,
        List.filter_cons, he', if_true, List.length_cons]
      omega

/-- C5: over an output decomposed into newline-free lines, the failure
parser returns exactly the concatenation of the per-line matches in line
order (so `k` matching lines give exactly `k` records, in first-occurrence
order, a duplicated line contributing one record per occurrence), each line
yields at most one record, and an output with no matching line yields the
empty record list (success, not an error). -/
theorem C5_parse_failures (ls : List Str) (h : ∀ l ∈ ls, '\n' ∉ l) :
    parse_test_failures (joinLines ls) =
      (ls.map (fun l => parse_test_failures l)).flatten ∧
    (parse_test_failures (joinLines ls)).length =
      (ls.filter (fun l => !(parse_test_failures l).isEmpty)).length ∧
    (∀ l ∈ ls, (parse_test_failures l).length ≤ 1) := by
  have hmain : parse_test_failures (joinLines ls) =
      (ls.map (fun l => parse_test_failures l)).flatten := by
    unfold parse_test_failures
    induction ls with
    | nil => rfl
    | cons l rest ih =>
      cases rest with
      | nil =>
        rw [show joinLines [l] = l from rfl]
        simp
      | cons l2 rest2 =>
        rw [show joinLines (l :: l2 :: rest2) =
          l ++ '\n' :: joinLines (l2 :: rest2) from rfl]
        rw [finditer_append_newline l _ (h l (by simp)),
          ih (fun x hx => h x (by simp [hx]))]
        simp
  refine ⟨hmain, ?_, ?_⟩
  · rw [hmain]
    exact flatten_finditer_length ls h
  · intro l hl
    exact finditer_length_le_one l (h l hl)

theorem C5_parse_failures_witness :
    parse_test_failures (joinLines
      ["FAILED a.py::t - E1".toList, "garbage".toList,
        "FAILED a.py::t - E1".toList]) =
      [⟨"a.py".toList, "t".toList, "E1".toList⟩,
        ⟨"a.py".toList, "t".toList, "E1".toList⟩] ∧
    (parse_test_failures (joinLines
      ["FAILED a.py::t - E1".toList, "garbage".toList,
        "FAILED a.py::t - E1".toList])).length = 2 := by
  have h := C5_parse_failures
    ["FAILED a.py::t - E1".toList, "garbage".toList,
      "FAILED a.py::t - E1".toList] (by decide)
  constructor
  · rw [h.1]
    decide
  · rw [h.2.1]
    decide

end DebugAgent
